import Mathlib

/-!
Verification of the Temporal Rating and Lineage Engine of the failmap
repository, shallowly embedded from `failmap/map/views.py` and
`failmap/organizations/management/commands/merge_organizations_2018.py`.
Timestamps are modelled as natural numbers (UTC instants with total
ordering), database tables as lists of records, and the raw SQL of the
views as list operations.
-/

namespace Failmap

/-- One entry of `endpoint['ratings']` inside a stored calculation tree:
a classified finding with type, explanation and severity counts. -/
structure EndpointRatingEntry where
  rtype : String
  explanation : String
  high : Nat
  medium : Nat
  low : Nat
deriving Repr, DecidableEq

/-- One entry of `url['endpoints']` inside a stored calculation tree. -/
structure EndpointCalc where
  protocol : String
  port : Nat
  ip_version : Nat
  ratings : List EndpointRatingEntry
deriving Repr, DecidableEq

/-- One entry of `calculation['organization']['urls']`: a URL aggregate.
The `endpoints` key is omitted from the stored JSON when the URL never
had an observed endpoint; we model the omitted key as `none`. -/
structure UrlCalc where
  url : String
  high : Nat
  medium : Nat
  endpoints : Option (List EndpointCalc)
deriving Repr, DecidableEq

/-- The `calculation` column of an organization rating:
`{"organization": {"urls": [...]}}`. -/
structure OrgCalculation where
  urls : List UrlCalc
deriving Repr, DecidableEq

/-- A row of the `map_organizationrating` table. `rating` may be the
sentinel `-1` (organization without URLs), hence an integer. -/
structure OrgRating where
  id : Nat
  organization_id : Nat
  rating : Int
  when : Nat
  high : Nat
  medium : Nat
  low : Nat
  calculation : OrgCalculation
deriving Repr, DecidableEq

/-- A row of the `organization` table with its lifecycle fields.
`is_dead_since` is nullable, modelled as an `Option`. -/
structure Organization where
  id : Nat
  name : String
  otype : String
  country : String
  twitter_handle : String
  created_on : Nat
  is_dead : Bool
  is_dead_since : Option Nat
  is_dead_reason : String
deriving Repr, DecidableEq

/-- A row of the `coordinate` table, owned by one organization, with the
same lifecycle fields as an entity. -/
structure Coordinate where
  id : Nat
  organization_id : Nat
  area : String
  geoJsonType : String
  created_on : Nat
  is_dead : Bool
  is_dead_since : Option Nat
deriving Repr, DecidableEq

/-- A row of the `promise` table: an advisory note scoped to one
organization. -/
structure Promise where
  id : Nat
  organization_id : Nat
  created_on : Nat
  expires_on : Nat
deriving Repr, DecidableEq

/-- A row of the `url` table. -/
structure Url where
  id : Nat
  url : String
  is_dead : Bool
  not_resolvable : Bool
deriving Repr, DecidableEq

/-- The database state the engine operates on. `url_organization` is the
many-to-many ownership edge set as pairs `(url_id, organization_id)`;
`organization_types` models the `organizationtype` table by name. -/
structure DB where
  organization_types : List String
  organizations : List Organization
  coordinates : List Coordinate
  promises : List Promise
  urls : List Url
  url_organization : List (Nat × Nat)
  organization_ratings : List OrgRating
deriving Repr, DecidableEq

/-! ## Classification Policy (map_data, views.py lines 776-783) -/

/-- Whether the serialized calculation of an organization rating carries
endpoint data: the code tests `"endpoints" not in i[6]` on the JSON
text, which for an organization calculation holds exactly when no URL
entry carries an `endpoints` key. -/
def calcHasEndpoints (c : OrgCalculation) : Bool :=
  c.urls.any (fun u => u.endpoints.isSome)

/-- The color branch of `map_data`:
`"gray"` when the calculation mentions no endpoint, otherwise
`"red" if high else "orange" if medium else "green"` (Python truthiness
of the severity counters). -/
def mapColor (hasEndpoints : Bool) (high medium : Nat) : String :=
  if hasEndpoints = false then "gray"
  else if high ≠ 0 then "red"
  else if medium ≠ 0 then "orange"
  else "green"

/-- The color assigned to a feature of `map_data` from its rating row. -/
def featureColor (r : OrgRating) : String :=
  mapColor (calcHasEndpoints r.calculation) r.high r.medium

/-- C3: with endpoint data the tag is red iff `high > 0`, orange iff
`high = 0` and `medium > 0`, green iff both are zero; without endpoint
data the tag is gray regardless of the counts. -/
theorem classification_policy (h m : Nat) :
    (mapColor true h m = "red" ↔ 0 < h) ∧
    (mapColor true h m = "orange" ↔ h = 0 ∧ 0 < m) ∧
    (mapColor true h m = "green" ↔ h = 0 ∧ m = 0) ∧
    (mapColor false h m = "gray") := by
  unfold mapColor
  by_cases hh : h = 0 <;> by_cases hm : m = 0 <;>
    simp [hh, hm] <;> omega

/-! ## Point-in-Time Resolver -/

/-- Keep the candidate with the larger `id`: the fold step realizing the
SQL `SELECT MAX(id) ... WHERE when <= T GROUP BY organization_id`
joined back on `id`. -/
def pickMaxId (acc : Option OrgRating) (r : OrgRating) : Option OrgRating :=
  match acc with
  | none => some r
  | some m => if m.id < r.id then some r else some m

/-- The implemented selection (views.py lines 448-457 and 759-762): the
row with maximal `id` among the ratings of organization `oid` with
`when <= T`; `none` when the organization has no such rating. -/
def latestRatingByMaxId (T : Nat) (rs : List OrgRating) (oid : Nat) :
    Option OrgRating :=
  (rs.filter (fun r => r.organization_id = oid && r.when ≤ T)).foldl pickMaxId none

/-- Keep the candidate with the lexicographically larger `(when, id)`:
latest `when` first, ties on `when` broken by highest `id`. -/
def pickMaxWhenId (acc : Option OrgRating) (r : OrgRating) : Option OrgRating :=
  match acc with
  | none => some r
  | some m =>
      if m.when < r.when || (m.when = r.when && m.id < r.id) then some r
      else some m

/-- Modelled from the spec contract of the Point-in-Time Resolver: the
snapshot with maximum `when` among those with `when <= T`, ties on
`when` broken by highest snapshot id; `none` when the entity has no
snapshot with `when <= T`. -/
def latestRatingSpec (T : Nat) (rs : List OrgRating) (oid : Nat) :
    Option OrgRating :=
  (rs.filter (fun r => r.organization_id = oid && r.when ≤ T)).foldl pickMaxWhenId none

/-- The two fold steps agree on every list whose elements satisfy the
monotonicity property `P` pairwise with the accumulator. -/
theorem foldl_pick_eq (l : List OrgRating)
    (hmono : ∀ a ∈ l, ∀ b ∈ l, a.id ≤ b.id → a.when ≤ b.when) :
    ∀ (acc : Option OrgRating),
      (∀ x, acc = some x → ∀ b ∈ l, (x.id ≤ b.id → x.when ≤ b.when) ∧
        (b.id ≤ x.id → b.when ≤ x.when)) →
      l.foldl pickMaxId acc = l.foldl pickMaxWhenId acc := by
  induction l with
  | nil => intro acc _; rfl
  | cons r t ih =>
    intro acc hacc
    have hstep : pickMaxId acc r = pickMaxWhenId acc r := by
      match acc with
      | none => rfl
      | some m =>
        have h1 : (m.id ≤ r.id → m.when ≤ r.when) ∧
            (r.id ≤ m.id → r.when ≤ m.when) :=
          hacc m rfl r (List.mem_cons_self r t)
        simp only [pickMaxId, pickMaxWhenId]
        by_cases hid : m.id < r.id
        · have hw : m.when ≤ r.when := h1.1 (Nat.le_of_lt hid)
          rcases Nat.lt_or_ge m.when r.when with hlt | hge
          · simp [hid, hlt]
          · have : m.when = r.when := Nat.le_antisymm hw hge
            simp [hid, this]
        · have hid2 : r.id ≤ m.id := Nat.le_of_not_lt hid
          have hw : r.when ≤ m.when := h1.2 hid2
          have hnw : ¬ m.when < r.when := Nat.not_lt.mpr hw
          have hnid : ¬ m.id < r.id := hid
          simp [hnw, hnid]
    rw [List.foldl_cons, List.foldl_cons, hstep]
    apply ih
    · intro a ha b hb
      exact hmono a (List.mem_cons_of_mem r ha) b (List.mem_cons_of_mem r hb)
    · intro x hx b hb
      have hbl : b ∈ r :: t := List.mem_cons_of_mem r hb
      have hxmem : x = r ∨ (∀ c ∈ r :: t, (x.id ≤ c.id → x.when ≤ c.when) ∧
          (c.id ≤ x.id → c.when ≤ x.when)) := by
        match acc with
        | none =>
          left
          simp only [pickMaxWhenId] at hx
          exact (Option.some.inj hx).symm
        | some m =>
          simp only [pickMaxWhenId] at hx
          by_cases hc : m.when < r.when || (m.when = r.when && m.id < r.id)
          · left
            rw [if_pos hc] at hx
            exact (Option.some.inj hx).symm
          · right
            rw [if_neg hc] at hx
            have hxm : x = m := (Option.some.inj hx).symm
            intro c hc2
            exact hxm ▸ hacc m rfl c hc2
      rcases hxmem with hxr | hall
      · subst hxr
        constructor
        · intro hle
          exact hmono x (List.mem_cons_self x t) b hbl hle
        · intro hle
          exact hmono b hbl x (List.mem_cons_self x t) hle
      · exact hall b hbl

/-- C1: under the invariant that within one entity snapshot ids are
appended in non-decreasing `when` order, the implemented MAX(id)
selection equals the spec contract (max `when`, ties on `when` broken by
highest id), and an entity with no snapshot at or before T is omitted
by both. -/
theorem resolver_refines_spec (T : Nat) (rs : List OrgRating) (oid : Nat)
    (hmono : ∀ a ∈ rs, ∀ b ∈ rs,
      a.organization_id = b.organization_id → a.id ≤ b.id → a.when ≤ b.when) :
    latestRatingByMaxId T rs oid = latestRatingSpec T rs oid ∧
    (latestRatingByMaxId T rs oid = none ↔
      ∀ r ∈ rs, r.organization_id = oid → ¬ r.when ≤ T) := by
  constructor
  · unfold latestRatingByMaxId latestRatingSpec
    apply foldl_pick_eq
    · intro a ha b hb hid
      have ha2 := List.mem_filter.mp ha
      have hb2 := List.mem_filter.mp hb
      have hao : a.organization_id = oid := by
        have := ha2.2; simp at this; exact this.1
      have hbo : b.organization_id = oid := by
        have := hb2.2; simp at this; exact this.1
      exact hmono a ha2.1 b hb2.1 (hao.trans hbo.symm) hid
    · intro x hx; cases hx
  · unfold latestRatingByMaxId
    constructor
    · intro hnone r hr ho hw
      have hmem : r ∈ rs.filter (fun r => r.organization_id = oid && r.when ≤ T) := by
        apply List.mem_filter.mpr
        exact ⟨hr, by simp [ho, hw]⟩
      have hne : rs.filter (fun r => r.organization_id = oid && r.when ≤ T) ≠ [] :=
        fun hnil => by rw [hnil] at hmem; cases hmem
      rcases List.exists_cons_of_ne_nil hne with ⟨h, t, ht⟩
      rw [ht] at hnone
      have : ∀ (acc : OrgRating) (l : List OrgRating),
          l.foldl pickMaxId (some acc) ≠ none := by
        intro acc l
        induction l generalizing acc with
        | nil => simp
        | cons y ys ih =>
          simp only [List.foldl_cons, pickMaxId]
          by_cases hc : acc.id < y.id
          · rw [if_pos hc]; exact ih y
          · rw [if_neg hc]; exact ih acc
      exact this h t (by simpa [pickMaxId] using hnone)
    · intro hall
      have : rs.filter (fun r => r.organization_id = oid && r.when ≤ T) = [] := by
        apply List.filter_eq_nil_iff.mpr
        intro a ha
        simp only [Bool.and_eq_true, decide_eq_true_eq, not_and]
        intro h1
        exact fun h2 => hall a ha h1 h2
      rw [this]
      rfl

/-- A sample finding entry inside a calculation tree. -/
def entryEx : EndpointRatingEntry :=
  { rtype := "tls_qualys", explanation := "broken", high := 1, medium := 0, low := 0 }

/-- A sample endpoint inside a calculation tree. -/
def endpointEx : EndpointCalc :=
  { protocol := "https", port := 443, ip_version := 4, ratings := [entryEx] }

/-- A sample URL aggregate inside a calculation tree. -/
def urlCalcEx : UrlCalc :=
  { url := "a.example.nl", high := 1, medium := 0, endpoints := some [endpointEx] }

/-- A small calculation tree with one URL carrying one endpoint. -/
def calcEx : OrgCalculation := { urls := [urlCalcEx] }

/-- Sample rating rows of one organization: ids appended in
non-decreasing `when` order. -/
def ratingsEx : List OrgRating :=
  [{ id := 1, organization_id := 1, rating := 10, when := 5,
     high := 1, medium := 0, low := 0, calculation := calcEx },
   { id := 2, organization_id := 1, rating := 20, when := 7,
     high := 0, medium := 1, low := 0, calculation := calcEx }]

/-- Witness for C1 at a concrete input: at T = 6 both selections return
the id-1 snapshot, discharging the monotone-append hypothesis. -/
theorem resolver_refines_spec_witness :
    latestRatingByMaxId 6 ratingsEx 1 = latestRatingSpec 6 ratingsEx 1 ∧
    (latestRatingByMaxId 6 ratingsEx 1 = none ↔
      ∀ r ∈ ratingsEx, r.organization_id = 1 → ¬ r.when ≤ 6) :=
  resolver_refines_spec 6 ratingsEx 1 (by decide)

/-! ## Lifecycle filter and map data (views.py lines 726-812) -/

/-- The organization-stack condition of the `map_data` SQL:
`(created_on <= T AND is_dead = 0) OR (T BETWEEN created_on AND
is_dead_since AND is_dead = 1)`.  A NULL `is_dead_since` makes the
BETWEEN predicate unknown, hence the row is excluded. -/
def aliveSql (T : Nat) (o : Organization) : Bool :=
  (o.created_on ≤ T && o.is_dead = false) ||
  ((match o.is_dead_since with
    | some d => o.created_on ≤ T && T ≤ d
    | none => false) && o.is_dead = true)

/-- The coordinate-stack condition of the `map_data` SQL, the same
shape as the organization stack. -/
def coordinateAliveSql (T : Nat) (c : Coordinate) : Bool :=
  (c.created_on ≤ T && c.is_dead = false) ||
  ((match c.is_dead_since with
    | some d => c.created_on ≤ T && T ≤ d
    | none => false) && c.is_dead = true)

/-- Dedup by a key, keeping for each key the element with the largest
id as computed by `idOf`: the `MAX(id) ... GROUP BY key` pattern. -/
def maxIdPerKey {α κ : Type} [DecidableEq κ] (key : α → κ) (idOf : α → Nat) :
    List α → List α
  | [] => []
  | x :: xs =>
      let rest := maxIdPerKey key idOf xs
      match rest.find? (fun y => key y = key x) with
      | some y =>
          rest.map (fun z => if key z = key x then
            (if idOf y < idOf x then x else y) else z)
      | none => x :: rest

/-- The coordinate stack of `map_data` restricted to one organization:
alive coordinates grouped by `(area, organization_id)`, keeping the
highest coordinate id per group, projected to `(geoJsonType, area)`. -/
def stackedAreas (T : Nat) (cs : List Coordinate) (oid : Nat) :
    List (String × String) :=
  (maxIdPerKey (fun c => c.area) (fun c => c.id)
    ((cs.filter (fun c => coordinateAliveSql T c && c.organization_id = oid)))).map
    (fun c => (c.geoJsonType, c.area))

/-- One feature row of the `map_data` output: the fields the SQL
projects out of the joined tables (no lifecycle columns). -/
structure Feature where
  organization_id : Nat
  organization_name : String
  organization_type : String
  rating : Int
  high : Nat
  medium : Nat
  low : Nat
  color : String
  areas : List (String × String)
deriving Repr, DecidableEq

/-- The feature produced for one organization by the `map_data` query:
none when the organization fails the alive stack, has no rating at or
before T, or has no stacked coordinate. -/
def resolveFeature (T : Nat) (rs : List OrgRating) (cs : List Coordinate)
    (o : Organization) : Option Feature :=
  if aliveSql T o then
    match latestRatingByMaxId T rs o.id with
    | some r =>
        match stackedAreas T cs o.id with
        | [] => none
        | areas =>
            some { organization_id := o.id, organization_name := o.name,
                   organization_type := o.otype, rating := r.rating,
                   high := r.high, medium := r.medium, low := r.low,
                   color := featureColor r, areas := areas }
    | none => none
  else none

/-- The `map_data` query: organizations passing the alive stack joined
with their MAX(id) rating at or before T and their stacked coordinate
areas. -/
def resolveMap (T : Nat) (db : DB) : List Feature :=
  db.organizations.filterMap (resolveFeature T db.organization_ratings db.coordinates)

/-! ## Statistics selection (views.py lines 448-457)

The stats query joins `map_organizationrating` only with the MAX(id)
subquery: it never consults the organization table, so no lifecycle
filter is applied (the source carries a
`todo: filter out dead organizations` comment at that spot). -/

/-- The per-timeframe row selection of `stats`: the MAX(id) rating at
or before T for every organization id that has any rating, with no
aliveness restriction. -/
def statsSelectedRatings (T : Nat) (rs : List OrgRating) : List OrgRating :=
  ((rs.map (fun r => r.organization_id)).dedup).filterMap (latestRatingByMaxId T rs)

/-- An organization that died at time 3. -/
def deadOrgEx : Organization :=
  { id := 1, name := "Gone", otype := "municipality", country := "NL",
    twitter_handle := "", created_on := 0, is_dead := true,
    is_dead_since := some 3, is_dead_reason := "stopped" }

/-- A rating of the dead organization, written before its death. -/
def deadOrgRatingEx : OrgRating :=
  { id := 1, organization_id := 1, rating := 10, when := 2,
    high := 1, medium := 0, low := 0, calculation := calcEx }

/-- C2, divergence of the code from the claim: at T = 10 the
organization `deadOrgEx` is not alive (it died at 3), the `map_data`
stack excludes it, yet the statistics selection still returns its
rating and counts it — the stats query applies no lifecycle filter. -/
theorem stats_returns_entity_not_alive :
    aliveSql 10 deadOrgEx = false ∧
    statsSelectedRatings 10 [deadOrgRatingEx] = [deadOrgRatingEx] := by
  constructor <;> rfl

/-! ## Leaderboard queries (views.py lines 182-264 and 267-339) -/

/-- One row of the `topfail` ranking. -/
structure TopfailEntry where
  organization_id : Nat
  organization_name : String
  organization_type : String
  rating : Int
  high : Nat
  medium : Nat
  low : Nat
deriving Repr, DecidableEq

/-- Insert into a sorted list, before the first element it is
less-or-equal to. -/
def insertBy {α : Type} (le : α → α → Bool) (x : α) : List α → List α
  | [] => [x]
  | y :: ys => if le x y then x :: y :: ys else y :: insertBy le x ys

/-- Insertion sort by a boolean comparison, modelling SQL ORDER BY. -/
def sortBy {α : Type} (le : α → α → Bool) : List α → List α
  | [] => []
  | x :: xs => insertBy le x (sortBy le xs)

theorem mem_insertBy {α : Type} (le : α → α → Bool) (x a : α) (l : List α) :
    a ∈ insertBy le x l ↔ a = x ∨ a ∈ l := by
  induction l with
  | nil => simp [insertBy]
  | cons y ys ih =>
    simp only [insertBy]
    by_cases hc : le x y = true
    · simp [hc]
    · simp only [if_neg hc, List.mem_cons, ih]
      tauto

theorem mem_sortBy {α : Type} (le : α → α → Bool) (a : α) (l : List α) :
    a ∈ sortBy le l ↔ a ∈ l := by
  induction l with
  | nil => simp [sortBy]
  | cons y ys ih => simp [sortBy, mem_insertBy, ih]

/-- Lexicographic order on character lists by code point. -/
def charListLt : List Char → List Char → Bool
  | [], [] => false
  | [], _ :: _ => true
  | _ :: _, [] => false
  | a :: as, b :: bs =>
      if a.toNat < b.toNat then true
      else if b.toNat < a.toNat then false
      else charListLt as bs

/-- Lexicographic order on strings, the collation of ORDER BY name. -/
def strLt (a b : String) : Bool := charListLt a.data b.data

/-- The ORDER BY of `topfail` exactly as written in the source:
`high DESC, medium DESC, medium DESC, organization.name ASC` — the
third key repeats `medium`, `low` does not participate. -/
def topfailOrder (a b : TopfailEntry) : Bool :=
  if a.high ≠ b.high then b.high < a.high
  else if a.medium ≠ b.medium then b.medium < a.medium
  else if a.medium ≠ b.medium then b.medium < a.medium
  else !(strLt b.organization_name a.organization_name)

/-- Modelled from the spec ranking rule (also the ORDER BY of
`terrible_urls`): `high DESC, medium DESC, low DESC, name ASC`. -/
def ratingOrder (a b : TopfailEntry) : Bool :=
  if a.high ≠ b.high then b.high < a.high
  else if a.medium ≠ b.medium then b.medium < a.medium
  else if a.low ≠ b.low then b.low < a.low
  else !(strLt b.organization_name a.organization_name)

/-- `GROUP BY organization.name`: keep one row per name. -/
def groupByName : List TopfailEntry → List TopfailEntry
  | [] => []
  | x :: xs =>
      x :: groupByName (xs.filter (fun y => y.organization_name ≠ x.organization_name))
  termination_by l => l.length
  decreasing_by
    exact Nat.lt_succ_of_le (List.length_filter_le _ xs)

theorem mem_groupByName (a : TopfailEntry) (l : List TopfailEntry) :
    a ∈ groupByName l → a ∈ l := by
  induction l using groupByName.induct with
  | case1 => intro h; rw [groupByName] at h; cases h
  | case2 x xs ih =>
    intro h
    rw [groupByName] at h
    rcases List.mem_cons.mp h with h1 | h2
    · exact h1 ▸ List.mem_cons_self _ _
    · exact List.mem_cons_of_mem _ (List.mem_of_mem_filter (ih h2))

/-- The `topfail` query: organizations joined with a coordinate row and
their MAX(id) rating at or before T, grouped by name, restricted by
`HAVING high > 0 or medium > 0`, ordered and limited to 10 rows. -/
def topfail (T : Nat) (db : DB) : List TopfailEntry :=
  let resolved := db.organizations.filterMap (fun o =>
    if db.coordinates.any (fun c => c.organization_id = o.id) then
      match latestRatingByMaxId T db.organization_ratings o.id with
      | some r =>
          some { organization_id := o.id, organization_name := o.name,
                 organization_type := o.otype, rating := r.rating,
                 high := r.high, medium := r.medium, low := r.low }
      | none => none
    else none)
  ((sortBy topfailOrder
    ((groupByName resolved).filter (fun e => 0 < e.high || 0 < e.medium))).take 10)

/-- C10: every entry of the `topfail` report has `high > 0` or
`medium > 0`, and the report holds at most 10 entries. -/
theorem topfail_entries_failing_and_bounded (T : Nat) (db : DB) :
    (∀ e ∈ topfail T db, 0 < e.high ∨ 0 < e.medium) ∧
    (topfail T db).length ≤ 10 := by
  constructor
  · intro e he
    have h1 : e ∈ sortBy topfailOrder
        ((groupByName _).filter (fun e => 0 < e.high || 0 < e.medium)) :=
      List.mem_of_mem_take he
    have h2 := (mem_sortBy _ e _).mp h1
    have h3 := List.of_mem_filter h2
    simpa using h3
  · exact List.length_take_le 10 _

/-! ## Lineage Manager (merge_organizations_2018.py, function merge)

The command runs inside `transaction.atomic`: any exception aborts the
whole operation and the database is left as it was.  We model the
transaction by an `Except` value: an error result carries no state, the
caller keeps the original database. -/

/-- The typed failures of the merge: Django raises `DoesNotExist` when a
`get` finds nothing and `MultipleObjectsReturned` when it finds more
than one row; both abort the transaction. -/
inductive MergeError where
  | notFound
  | multipleReturned
deriving Repr, DecidableEq

/-- The predicate of the alive-organization lookup. -/
def aliveMatchP (name country otype : String) (o : Organization) : Bool :=
  o.name = name && o.country = country && o.otype = otype && o.is_dead = false

/-- The alive organizations of a table matching a (name, country, type)
triple. -/
def aliveMatchesL (orgs : List Organization) (name country otype : String) :
    List Organization :=
  orgs.filter (aliveMatchP name country otype)

/-- The alive organizations matching a (name, country, type) triple. -/
def aliveMatches (db : DB) (name country otype : String) : List Organization :=
  aliveMatchesL db.organizations name country otype

/-- `Organization.objects.get(name=..., country=..., type=..., is_dead=False)`. -/
def getAliveOrg (db : DB) (name country otype : String) :
    Except MergeError Organization :=
  match aliveMatches db name country otype with
  | [] => .error .notFound
  | [o] => .ok o
  | _ :: _ :: _ => .error .multipleReturned

/-- The next autoincrement value for a list of primary keys. -/
def nextId (ids : List Nat) : Nat := ids.foldr (fun i acc => max i acc) 0 + 1

/-- The next organization primary key. -/
def nextOrgId (db : DB) : Nat := nextId (db.organizations.map (fun o => o.id))

/-- Mark one organization record dead when its id matches. -/
def killMark (oid whenT : Nat) (reason : String) (o : Organization) : Organization :=
  if o.id = oid then
    { o with is_dead := true, is_dead_since := some whenT, is_dead_reason := reason }
  else o

/-- Mark the organization with the given id dead as of `whenT`. -/
def killOrg (db : DB) (oid whenT : Nat) (reason : String) : DB :=
  { db with organizations := db.organizations.map (killMark oid whenT reason) }

/-- Clone every not-dead coordinate of the source onto the new
organization: each clone is saved as a fresh row (fresh id, owner set to
the new organization), the original rows stay untouched. -/
def cloneCoordinates (db : DB) (srcId newOrgId : Nat) : DB :=
  let live := db.coordinates.filter
    (fun c => c.organization_id = srcId && c.is_dead = false)
  let saved := live.foldl
    (fun acc c => acc ++
      [{ c with id := nextId (acc.map (fun c2 => c2.id)),
                organization_id := newOrgId }])
    db.coordinates
  { db with coordinates := saved }

/-- Clone every promise of the source that has not expired by `now`
(`expires_on__gte=datetime.now`) onto the new organization. -/
def clonePromises (db : DB) (srcId newOrgId now : Nat) : DB :=
  let active := db.promises.filter
    (fun p => p.organization_id = srcId && now ≤ p.expires_on)
  let saved := active.foldl
    (fun acc p => acc ++
      [{ p with id := nextId (acc.map (fun p2 => p2.id)),
                organization_id := newOrgId }])
    db.promises
  { db with promises := saved }

/-- `url.organization.add(new_organization)`: a many-to-many add is a
no-op when the edge already exists. -/
def addOrgToUrl (edges : List (Nat × Nat)) (uid oid : Nat) : List (Nat × Nat) :=
  if edges.contains (uid, oid) then edges else edges ++ [(uid, oid)]

/-- Add the new organization as owner of every url currently owned by
the source organization. -/
def addUrlEdges (db : DB) (srcId newOrgId : Nat) : DB :=
  let owned := db.urls.filter (fun u => db.url_organization.contains (u.id, srcId))
  let edges := owned.foldl (fun es u => addOrgToUrl es u.id newOrgId) db.url_organization
  { db with url_organization := edges }

/-- One iteration of the source loop: look up the named source among
alive organizations (a miss raises and aborts), clone its coordinates
and active promises, add the new organization to its urls, and mark the
source dead as of `whenT`. -/
def mergeOneSource (country otype : String) (whenT now newOrgId : Nat)
    (db : DB) (srcName : String) : Except MergeError DB :=
  match getAliveOrg db srcName country otype with
  | .error e => .error e
  | .ok src =>
      let db1 := cloneCoordinates db src.id newOrgId
      let db2 := clonePromises db1 src.id newOrgId now
      let db3 := addUrlEdges db2 src.id newOrgId
      .ok (killOrg db3 src.id whenT "Merged into the new organization.")

/-- The source loop of `merge`. -/
def mergeSources (country otype : String) (whenT now newOrgId : Nat) :
    List String → DB → Except MergeError DB
  | [], db => .ok db
  | s :: rest, db =>
      match mergeOneSource country otype whenT now newOrgId db s with
      | .error e => .error e
      | .ok db2 => mergeSources country otype whenT now newOrgId rest db2

/-- The handling of an existing alive organization that already carries
the target identity: it is retired as of `whenT`, the successor inherits
its twitter handle; a `DoesNotExist` here is caught and ignored, but a
`MultipleObjectsReturned` still aborts. -/
def retireOriginalTarget (db : DB) (target country otype : String) (whenT : Nat) :
    Except MergeError (DB × String) :=
  match getAliveOrg db target country otype with
  | .ok orig =>
      .ok (killOrg db orig.id whenT
             "Merged with other organizations, reusing the same name but different data.",
           orig.twitter_handle)
  | .error .notFound => .ok (db, "")
  | .error .multipleReturned => .error MergeError.multipleReturned

/-- The successor organization the merge saves: fresh id, the target
identity, the predecessor twitter handle when one existed, created at
the cutover and alive. -/
def newOrganization (nid : Nat) (target otype country twitter : String)
    (whenT : Nat) : Organization :=
  { id := nid, name := target, otype := otype, country := country,
    twitter_handle := twitter, created_on := whenT, is_dead := false,
    is_dead_since := none, is_dead_reason := "" }

/-- The merge operation: resolve the organization type (a miss aborts),
retire a currently alive organization carrying the target identity if
one exists, save the new organization with `created_on = whenT`, then
process each source. -/
def merge (sources : List String) (target : String) (whenT : Nat)
    (otype country : String) (now : Nat) (db : DB) : Except MergeError DB :=
  if db.organization_types.contains otype then
    match retireOriginalTarget db target country otype whenT with
    | .error e => .error e
    | .ok (db1, twitter) =>
        let newId := nextOrgId db1
        mergeSources country otype whenT now newId sources
          { db1 with organizations := db1.organizations ++
              [newOrganization newId target otype country twitter whenT] }
  else .error .notFound

/-! ## Merge error handling (C5) -/

/-- The uniqueness invariant the merge command documents
(`implies that name + country + organization_type is unique`): no two
rows of the organization table are simultaneously alive with the same
name for the given country and type. -/
def UniqueAlive (db : DB) (country otype : String) : Prop :=
  db.organizations.Pairwise (fun o1 o2 =>
    ¬ (o1.is_dead = false ∧ o2.is_dead = false ∧ o1.name = o2.name ∧
       o1.country = country ∧ o2.country = country ∧
       o1.otype = otype ∧ o2.otype = otype))

theorem pairwise_filter_length_le_one {α : Type} (q : α → Bool) (l : List α)
    (h : l.Pairwise (fun a b => ¬ (q a = true ∧ q b = true))) :
    (l.filter q).length ≤ 1 := by
  induction l with
  | nil => simp
  | cons a t ih =>
    rcases List.pairwise_cons.mp h with ⟨ha, ht⟩
    by_cases hqa : q a = true
    · have hnil : t.filter q = [] := by
        apply List.filter_eq_nil_iff.mpr
        intro b hb hqb
        exact ha b hb ⟨hqa, hqb⟩
      simp [List.filter_cons, hqa, hnil]
    · simp only [List.filter_cons, hqa, if_neg]
      simpa [hqa] using ih ht

theorem aliveMatchP_props (n c t : String) (o : Organization)
    (h : aliveMatchP n c t o = true) :
    o.name = n ∧ o.country = c ∧ o.otype = t ∧ o.is_dead = false := by
  unfold aliveMatchP at h
  simp only [Bool.and_eq_true, decide_eq_true_eq] at h
  exact ⟨h.1.1.1, h.1.1.2, h.1.2, h.2⟩

/-- The documented uniqueness invariant bounds every alive lookup by one
row. -/
theorem uniqueAlive_len (db : DB) (country otype : String)
    (h : UniqueAlive db country otype) (n : String) :
    (aliveMatches db n country otype).length ≤ 1 := by
  unfold aliveMatches aliveMatchesL
  apply pairwise_filter_length_le_one
  apply List.Pairwise.imp ?_ h
  intro a b hnab hab
  rcases aliveMatchP_props _ _ _ _ hab.1 with ⟨ha1, ha2, ha3, ha4⟩
  rcases aliveMatchP_props _ _ _ _ hab.2 with ⟨hb1, hb2, hb3, hb4⟩
  exact hnab ⟨ha4, hb4, ha1.trans hb1.symm, ha2, hb2, ha3, hb3⟩

/-- Killing a record never enlarges an alive lookup. -/
theorem aliveMatchesL_kill_length (l : List Organization) (oid w : Nat)
    (r n c t : String) :
    (aliveMatchesL (l.map (killMark oid w r)) n c t).length ≤
      (aliveMatchesL l n c t).length := by
  unfold aliveMatchesL
  induction l with
  | nil => simp
  | cons a tl ih =>
    simp only [List.map_cons, List.filter_cons]
    by_cases hfa : aliveMatchP n c t (killMark oid w r a) = true
    · have hpa : aliveMatchP n c t a = true := by
        unfold killMark at hfa
        by_cases hid : a.id = oid
        · rw [if_pos hid] at hfa
          rcases aliveMatchP_props _ _ _ _ hfa with ⟨_, _, _, hdead⟩
          cases hdead
        · rwa [if_neg hid] at hfa
      simp only [hfa, if_pos, hpa, List.length_cons]
      omega
    · by_cases hpa : aliveMatchP n c t a = true
      · simp only [hfa, if_neg, Bool.not_eq_true, hpa, if_pos, List.length_cons]
        omega
      · simp only [hfa, hpa, if_neg, Bool.not_eq_true]
        exact ih

/-- Killing a record preserves an empty alive lookup. -/
theorem aliveMatchesL_kill_empty (l : List Organization) (oid w : Nat)
    (r n c t : String) (h : aliveMatchesL l n c t = []) :
    aliveMatchesL (l.map (killMark oid w r)) n c t = [] := by
  have := aliveMatchesL_kill_length l oid w r n c t
  rw [h] at this
  simp only [List.length_nil, Nat.le_zero, List.length_eq_zero] at this
  exact this

/-- Killing the unique alive match of a name empties its lookup. -/
theorem aliveMatchesL_kill_self (l : List Organization) (orig : Organization)
    (w : Nat) (r n c t : String) (hm : aliveMatchesL l n c t = [orig]) :
    aliveMatchesL (l.map (killMark orig.id w r)) n c t = [] := by
  unfold aliveMatchesL at *
  apply List.filter_eq_nil_iff.mpr
  intro a ha hp
  rcases List.mem_map.mp ha with ⟨b, hb, hba⟩
  by_cases hid : b.id = orig.id
  · rw [← hba] at hp
    unfold killMark at hp
    rw [if_pos hid] at hp
    rcases aliveMatchP_props _ _ _ _ hp with ⟨_, _, _, hdead⟩
    cases hdead
  · have hba2 : a = b := by
      rw [← hba]; unfold killMark; rw [if_neg hid]
    rw [hba2] at hp
    have hmem : b ∈ l.filter (aliveMatchP n c t) := List.mem_filter.mpr ⟨hb, hp⟩
    rw [hm] at hmem
    have : b = orig := by simpa using hmem
    exact hid (by rw [this])

/-- `getAliveOrg` succeeds exactly on a singleton lookup. -/
theorem getAliveOrg_ok_eq (db : DB) (n c t : String) (o : Organization)
    (h : getAliveOrg db n c t = .ok o) : aliveMatches db n c t = [o] := by
  unfold getAliveOrg at h
  match hm : aliveMatches db n c t with
  | [] => rw [hm] at h; cases h
  | [x] => rw [hm] at h; cases h; rfl
  | x :: y :: l => rw [hm] at h; cases h

/-- Unfolding equation of the source loop. -/
theorem mergeSources_cons (c t : String) (w nw nid : Nat) (s : String)
    (rest : List String) (db : DB) :
    mergeSources c t w nw nid (s :: rest) db =
      (match mergeOneSource c t w nw nid db s with
       | .error e => .error e
       | .ok db2 => mergeSources c t w nw nid rest db2) := rfl

/-- A source whose name has no alive record when its loop iteration
runs, or any iteration before it failing, makes the loop abort with the
not-found error. -/
theorem mergeSources_missing_source (country otype : String)
    (whenT now newId : Nat) (s : String) (srcList : List String) :
    ∀ (db : DB), s ∈ srcList →
      (∀ n, (aliveMatches db n country otype).length ≤ 1) →
      aliveMatches db s country otype = [] →
      mergeSources country otype whenT now newId srcList db = .error .notFound := by
  induction srcList with
  | nil => intro db h; cases h
  | cons x rest ih =>
    intro db hs hU hM
    rw [mergeSources_cons]
    cases hg : getAliveOrg db x country otype with
    | error e =>
        cases e with
        | notFound => simp [mergeOneSource, hg]
        | multipleReturned =>
            exfalso
            have hlen := hU x
            unfold getAliveOrg at hg
            match hm : aliveMatches db x country otype with
            | [] => rw [hm] at hg; cases hg
            | [o] => rw [hm] at hg; cases hg
            | a :: b :: l => rw [hm] at hlen; simp at hlen
    | ok src =>
        have hmx : aliveMatches db x country otype = [src] :=
          getAliveOrg_ok_eq _ _ _ _ _ hg
        have hsx : s ≠ x := by
          intro he; rw [he, hmx] at hM; cases hM
        have hs2 : s ∈ rest := by
          rcases List.mem_cons.mp hs with h | h
          · exact absurd h hsx
          · exact h
        simp only [mergeOneSource, hg]
        set db3 := killOrg (addUrlEdges (clonePromises
          (cloneCoordinates db src.id newId) src.id newId now) src.id newId)
          src.id whenT "Merged into the new organization." with hdb3
        have horgs : db3.organizations =
            db.organizations.map (killMark src.id whenT
              "Merged into the new organization.") := rfl
        apply ih db3 hs2
        · intro n
          have h1 : aliveMatches db3 n country otype =
              aliveMatchesL (db.organizations.map (killMark src.id whenT
                "Merged into the new organization.")) n country otype := by
            unfold aliveMatches; rw [horgs]
          rw [h1]
          exact Nat.le_trans (aliveMatchesL_kill_length _ _ _ _ _ _ _) (hU n)
        · have h1 : aliveMatches db3 s country otype =
              aliveMatchesL (db.organizations.map (killMark src.id whenT
                "Merged into the new organization.")) s country otype := by
            unfold aliveMatches; rw [horgs]
          rw [h1]
          exact aliveMatchesL_kill_empty _ _ _ _ _ _ _ hM

/-- C5 amended: if a named source organization whose name differs from
the target name has no currently-alive record, the merge aborts with
the typed not-found error; the atomic transaction yields no state, so
the database keeps no partial effect. -/
theorem merge_missing_source_aborts (sources : List String) (target : String)
    (whenT now : Nat) (otype country : String) (db : DB) (s : String)
    (hs : s ∈ sources) (hneq : s ≠ target)
    (huniq : UniqueAlive db country otype)
    (hmissing : aliveMatches db s country otype = []) :
    merge sources target whenT otype country now db = .error .notFound := by
  have hU : ∀ n, (aliveMatches db n country otype).length ≤ 1 :=
    uniqueAlive_len db country otype huniq
  unfold merge
  by_cases hc : db.organization_types.contains otype
  · rw [if_pos hc]
    cases hg : getAliveOrg db target country otype with
    | error e =>
        cases e with
        | notFound =>
            simp only [retireOriginalTarget, hg]
            apply mergeSources_missing_source country otype whenT now _ s sources _ hs
            · intro n
              unfold aliveMatches aliveMatchesL
              simp only [List.filter_append]
              by_cases hn : aliveMatchP n country otype
                  (newOrganization (nextOrgId db) target otype country
                    "" whenT) = true
              · have hnt : n = target := by
                  rcases aliveMatchP_props _ _ _ _ hn with ⟨h1, _, _, _⟩
                  exact h1.symm
                subst hnt
                have hemp : aliveMatches db n country otype = [] := by
                  unfold getAliveOrg at hg
                  match hm : aliveMatches db n country otype with
                  | [] => rfl
                  | [o] => rw [hm] at hg; cases hg
                  | a :: b :: l => rw [hm] at hg; cases hg
                unfold aliveMatches aliveMatchesL at hemp
                rw [hemp]
                simp [hn]
              · simp only [List.filter_cons, hn, List.filter_nil,
                  if_neg, Bool.not_eq_true, List.append_nil]
                simpa using hU n
            · unfold aliveMatches aliveMatchesL
              simp only [List.filter_append]
              have hns : aliveMatchP s country otype
                  (newOrganization (nextOrgId db) target otype country
                    "" whenT) = false := by
                unfold aliveMatchP newOrganization
                simp [Ne.symm hneq]
              unfold aliveMatches aliveMatchesL at hmissing
              rw [hmissing]
              simp [hns]
        | multipleReturned =>
            exfalso
            have hlen := hU target
            unfold getAliveOrg at hg
            match hm : aliveMatches db target country otype with
            | [] => rw [hm] at hg; cases hg
            | [o] => rw [hm] at hg; cases hg
            | a :: b :: l => rw [hm] at hlen; simp at hlen
    | ok orig =>
        have hmt : aliveMatches db target country otype = [orig] :=
          getAliveOrg_ok_eq _ _ _ _ _ hg
        simp only [retireOriginalTarget, hg]
        have horgs : (killOrg db orig.id whenT
            "Merged with other organizations, reusing the same name but different data.").organizations =
            db.organizations.map (killMark orig.id whenT
              "Merged with other organizations, reusing the same name but different data.") := rfl
        apply mergeSources_missing_source country otype whenT now _ s sources _ hs
        · intro n
          unfold aliveMatches aliveMatchesL
          simp only [List.filter_append, horgs]
          by_cases hn : aliveMatchP n country otype
              (newOrganization (nextOrgId (killOrg db orig.id whenT
                  "Merged with other organizations, reusing the same name but different data."))
                target otype country orig.twitter_handle whenT) = true
          · have hnt : n = target := by
              rcases aliveMatchP_props _ _ _ _ hn with ⟨h1, _, _, _⟩
              exact h1.symm
            subst hnt
            have hkill := aliveMatchesL_kill_self db.organizations orig whenT
              "Merged with other organizations, reusing the same name but different data."
              n country otype hmt
            unfold aliveMatchesL at hkill
            rw [hkill]
            simp [hn]
          · simp only [List.filter_cons, hn, List.filter_nil,
              if_neg, Bool.not_eq_true, List.append_nil]
            have := aliveMatchesL_kill_length db.organizations orig.id whenT
              "Merged with other organizations, reusing the same name but different data."
              n country otype
            unfold aliveMatchesL at this
            simpa using Nat.le_trans this (hU n)
        · unfold aliveMatches aliveMatchesL
          simp only [List.filter_append, horgs]
          have hns : ∀ tw, aliveMatchP s country otype
              (newOrganization (nextOrgId (killOrg db orig.id whenT
                  "Merged with other organizations, reusing the same name but different data."))
                target otype country tw whenT) = false := by
            intro tw
            unfold aliveMatchP newOrganization
            simp [Ne.symm hneq]
          have hkill := aliveMatchesL_kill_empty db.organizations orig.id whenT
            "Merged with other organizations, reusing the same name but different data."
            s country otype hmissing
          unfold aliveMatchesL at hkill
          rw [hkill]
          simp [hns]
  · rw [if_neg hc]

/-- An empty database that still knows the municipality type. -/
def dbEmptyEx : DB :=
  { organization_types := ["municipality"], organizations := [],
    coordinates := [], promises := [], urls := [], url_organization := [],
    organization_ratings := [] }

/-- C5 counterexample: source "Z" has no currently-alive record, yet
`merge(["Z"], "Z", ...)` does not fail — the freshly saved successor
itself satisfies the source lookup, the merge commits and leaves behind
one (dead) organization named Z. -/
theorem merge_self_named_source_counterexample :
    aliveMatches dbEmptyEx "Z" "NL" "municipality" = [] ∧
    (match merge ["Z"] "Z" 10 "municipality" "NL" 0 dbEmptyEx with
     | .ok d => d.organizations.map (fun o => (o.name, o.is_dead))
     | .error _ => []) = [("Z", true)] := ⟨rfl, rfl⟩

/-- An alive organization named A. -/
def orgAliveA : Organization :=
  { id := 1, name := "A", otype := "municipality", country := "NL",
    twitter_handle := "", created_on := 0, is_dead := false,
    is_dead_since := none, is_dead_reason := "" }

/-- A database holding only the alive organization A. -/
def dbMergeEx : DB :=
  { organization_types := ["municipality"], organizations := [orgAliveA],
    coordinates := [], promises := [], urls := [], url_organization := [],
    organization_ratings := [] }

/-- Witness for the amended C5: merging sources A and B into T, where B
has no alive record, aborts with the not-found error. -/
theorem merge_missing_source_aborts_witness :
    merge ["A", "B"] "T" 10 "municipality" "NL" 0 dbMergeEx =
      .error .notFound :=
  merge_missing_source_aborts ["A", "B"] "T" 10 0 "municipality" "NL"
    dbMergeEx "B" (by decide) (by decide)
    (by unfold UniqueAlive dbMergeEx; simp) (by decide)

/-! ## Leaderboard ordering (C4) -/

/-- Two organizations tied on high and medium, differing in low and in
name. -/
def tfA : TopfailEntry :=
  { organization_id := 1, organization_name := "aa",
    organization_type := "municipality", rating := 5,
    high := 1, medium := 5, low := 0 }

def tfB : TopfailEntry :=
  { organization_id := 2, organization_name := "bb",
    organization_type := "municipality", rating := 5,
    high := 1, medium := 5, low := 9 }

/-- The three organizations of the spec example. -/
def tfC : TopfailEntry :=
  { organization_id := 3, organization_name := "cc",
    organization_type := "municipality", rating := 5,
    high := 2, medium := 0, low := 0 }

def tfD : TopfailEntry :=
  { organization_id := 4, organization_name := "dd",
    organization_type := "municipality", rating := 5,
    high := 1, medium := 5, low := 0 }

def tfE : TopfailEntry :=
  { organization_id := 5, organization_name := "ee",
    organization_type := "municipality", rating := 5,
    high := 1, medium := 0, low := 9 }

/-- C4 divergence: the `topfail` ORDER BY (which repeats `medium` where
its sibling queries use `low`) sorts the tie (1,5,0,"aa") before
(1,5,9,"bb") - name decides because `low` never participates - while
the claimed order `high, medium, low DESC, name ASC` puts (1,5,9,"bb")
first.  On the spec example (2,0,0), (1,5,0), (1,0,9) the two orders
coincide. -/
theorem topfail_order_ignores_low :
    sortBy topfailOrder [tfB, tfA] = [tfA, tfB] ∧
    sortBy ratingOrder [tfB, tfA] = [tfB, tfA] ∧
    sortBy topfailOrder [tfE, tfD, tfC] = [tfC, tfD, tfE] ∧
    sortBy ratingOrder [tfE, tfD, tfC] = [tfC, tfD, tfE] := by
  refine ⟨?_, ?_, ?_, ?_⟩ <;> decide

/-! ## Merge history preservation (C6) -/

theorem filterMap_congr_mem {α β : Type} (f g : α → Option β) (l : List α)
    (h : ∀ a ∈ l, f a = g a) : l.filterMap f = l.filterMap g := by
  induction l with
  | nil => rfl
  | cons a t ih =>
    rw [List.filterMap_cons, List.filterMap_cons, h a (List.mem_cons_self a t),
      ih (fun b hb => h b (List.mem_cons_of_mem a hb))]

/-- `resolveMap` as a function of the three table components it reads. -/
def resolveMapC (T : Nat) (orgs : List Organization) (rs : List OrgRating)
    (cs : List Coordinate) : List Feature :=
  orgs.filterMap (resolveFeature T rs cs)

theorem resolveMap_eq_resolveMapC (T : Nat) (db : DB) :
    resolveMap T db =
      resolveMapC T db.organizations db.organization_ratings db.coordinates := rfl

theorem killMark_id (oid w : Nat) (r : String) (o : Organization) :
    (killMark oid w r o).id = o.id := by
  unfold killMark; split <;> rfl

theorem killMark_created_on (oid w : Nat) (r : String) (o : Organization) :
    (killMark oid w r o).created_on = o.created_on := by
  unfold killMark; split <;> rfl

theorem killMark_name (oid w : Nat) (r : String) (o : Organization) :
    (killMark oid w r o).name = o.name := by
  unfold killMark; split <;> rfl

theorem killMark_otype (oid w : Nat) (r : String) (o : Organization) :
    (killMark oid w r o).otype = o.otype := by
  unfold killMark; split <;> rfl

theorem map_id_killMark (l : List Organization) (oid w : Nat) (r : String) :
    (l.map (killMark oid w r)).map (fun o => o.id) = l.map (fun o => o.id) := by
  rw [List.map_map]
  exact List.map_congr_left (fun o _ => killMark_id oid w r o)

/-- An organization created at the cutover is not alive strictly before
it. -/
theorem aliveSql_false_of_created_at (T whenT : Nat) (o : Organization)
    (hc : o.created_on = whenT) (hT : T < whenT) : aliveSql T o = false := by
  unfold aliveSql
  have hn : ¬ (o.created_on ≤ T) := by omega
  cases hd : o.is_dead_since <;> simp [hn]

/-- Marking an alive record dead at the cutover does not change its
aliveness strictly before the cutover. -/
theorem aliveSql_killMark (T whenT : Nat) (reason : String) (oid : Nat)
    (o : Organization) (hT : T < whenT)
    (halive : o.id = oid → o.is_dead = false) :
    aliveSql T (killMark oid whenT reason o) = aliveSql T o := by
  unfold killMark
  by_cases hid : o.id = oid
  · rw [if_pos hid]
    have hdead : o.is_dead = false := halive hid
    have hTw : T ≤ whenT := Nat.le_of_lt hT
    unfold aliveSql
    cases hd : o.is_dead_since <;> simp [hdead, hTw]
  · rw [if_neg hid]

/-- Marking an alive record dead at the cutover does not change its
visibility strictly before the cutover. -/
theorem resolveFeature_killMark (T whenT : Nat) (rs : List OrgRating)
    (cs : List Coordinate) (oid : Nat) (reason : String) (o : Organization)
    (hT : T < whenT) (halive : o.id = oid → o.is_dead = false) :
    resolveFeature T rs cs (killMark oid whenT reason o) =
      resolveFeature T rs cs o := by
  have hal := aliveSql_killMark T whenT reason oid o hT halive
  unfold resolveFeature
  rw [hal, killMark_id, killMark_name, killMark_otype]

/-- Killing one alive organization leaves the map unchanged strictly
before the cutover. -/
theorem resolveMapC_kill (T whenT : Nat) (orgs : List Organization)
    (rs : List OrgRating) (cs : List Coordinate) (oid : Nat) (reason : String)
    (hT : T < whenT)
    (halive : ∀ o ∈ orgs, o.id = oid → o.is_dead = false) :
    resolveMapC T (orgs.map (killMark oid whenT reason)) rs cs =
      resolveMapC T orgs rs cs := by
  unfold resolveMapC
  rw [List.filterMap_map]
  exact filterMap_congr_mem _ _ _
    (fun o ho => resolveFeature_killMark T whenT rs cs oid reason o hT (halive o ho))

/-- Appending an organization that is not alive at T leaves the map
unchanged. -/
theorem resolveMapC_append (T : Nat) (orgs : List Organization)
    (rs : List OrgRating) (cs : List Coordinate) (o : Organization)
    (ho : aliveSql T o = false) :
    resolveMapC T (orgs ++ [o]) rs cs = resolveMapC T orgs rs cs := by
  unfold resolveMapC
  rw [List.filterMap_append]
  have hnone : resolveFeature T rs cs o = none := by
    unfold resolveFeature
    rw [ho]
    rfl
  simp [hnone]

/-- Appending coordinates that all belong to an organization id that is
never alive at T leaves the map unchanged. -/
theorem resolveMapC_coords (T : Nat) (orgs : List Organization)
    (rs : List OrgRating) (cs extra : List Coordinate) (nid : Nat)
    (hextra : ∀ c ∈ extra, c.organization_id = nid)
    (hno : ∀ o ∈ orgs, o.id = nid → aliveSql T o = false) :
    resolveMapC T orgs rs (cs ++ extra) = resolveMapC T orgs rs cs := by
  unfold resolveMapC
  apply filterMap_congr_mem
  intro o ho
  unfold resolveFeature
  by_cases hal : aliveSql T o = true
  · have hid : o.id ≠ nid := by
      intro h
      rw [hno o ho h] at hal
      cases hal
    have hareas : stackedAreas T (cs ++ extra) o.id = stackedAreas T cs o.id := by
      unfold stackedAreas
      rw [List.filter_append]
      have hnil : extra.filter
          (fun c => coordinateAliveSql T c && c.organization_id = o.id) = [] := by
        apply List.filter_eq_nil_iff.mpr
        intro c hc
        simp only [Bool.and_eq_true, decide_eq_true_eq, not_and]
        intro _
        rw [hextra c hc]
        exact fun h => hid h.symm
      rw [hnil, List.append_nil]
    rw [hareas]
  · have hal2 : aliveSql T o = false := by
      cases h : aliveSql T o
      · rfl
      · exact absurd h hal
    rw [hal2]
    rfl

/-- A fold that appends one derived row per input leaves the
accumulator as a prefix, and every appended row satisfies the property
of the row builder. -/
theorem foldl_append_extra {α β : Type} (step : List α → β → α) (P : α → Prop)
    (hstep : ∀ acc c, P (step acc c)) (l : List β) :
    ∀ acc : List α, ∃ extra,
      l.foldl (fun a c => a ++ [step a c]) acc = acc ++ extra ∧
      ∀ x ∈ extra, P x := by
  induction l with
  | nil => intro acc; exact ⟨[], by simp, by simp⟩
  | cons c t ih =>
    intro acc
    rcases ih (acc ++ [step acc c]) with ⟨extra, he, hp⟩
    refine ⟨step acc c :: extra, ?_, ?_⟩
    · simpa using he
    · intro x hx
      rcases List.mem_cons.mp hx with h | h
      · exact h ▸ hstep acc c
      · exact hp x h

theorem cloneCoordinates_coords (db : DB) (srcId newOrgId : Nat) :
    ∃ extra, (cloneCoordinates db srcId newOrgId).coordinates =
        db.coordinates ++ extra ∧
      ∀ c ∈ extra, c.organization_id = newOrgId := by
  unfold cloneCoordinates
  exact foldl_append_extra
    (fun (acc : List Coordinate) (c : Coordinate) => { c with
                      id := nextId (acc.map (fun c2 => c2.id)),
                      organization_id := newOrgId })
    (fun x => x.organization_id = newOrgId)
    (fun _ _ => rfl) _ db.coordinates

theorem clonePromises_promises (db : DB) (srcId newOrgId now : Nat) :
    ∃ extra, (clonePromises db srcId newOrgId now).promises =
        db.promises ++ extra ∧
      ∀ p ∈ extra, p.organization_id = newOrgId := by
  unfold clonePromises
  exact foldl_append_extra
    (fun (acc : List Promise) (p : Promise) => { p with
                      id := nextId (acc.map (fun p2 => p2.id)),
                      organization_id := newOrgId })
    (fun x => x.organization_id = newOrgId)
    (fun _ _ => rfl) _ db.promises

theorem mem_addOrgToUrl (es : List (Nat × Nat)) (uid oid : Nat)
    (e : Nat × Nat) (he : e ∈ es) : e ∈ addOrgToUrl es uid oid := by
  unfold addOrgToUrl
  split
  · exact he
  · exact List.mem_append_left _ he

theorem addEdges_fold_extra (newOrgId : Nat) (l : List Url) :
    ∀ es : List (Nat × Nat), ∃ extra,
      l.foldl (fun es u => addOrgToUrl es u.id newOrgId) es = es ++ extra ∧
      ∀ e ∈ extra, e.2 = newOrgId := by
  induction l with
  | nil => intro es; exact ⟨[], by simp, by simp⟩
  | cons u t ih =>
    intro es
    rw [List.foldl_cons]
    by_cases hc : es.contains (u.id, newOrgId)
    · rw [show addOrgToUrl es u.id newOrgId = es by
        unfold addOrgToUrl; rw [if_pos hc]]
      exact ih es
    · rw [show addOrgToUrl es u.id newOrgId = es ++ [(u.id, newOrgId)] by
        unfold addOrgToUrl; rw [if_neg hc]]
      rcases ih (es ++ [(u.id, newOrgId)]) with ⟨extra, he, hp⟩
      refine ⟨(u.id, newOrgId) :: extra, ?_, ?_⟩
      · simpa using he
      · intro e hx
        rcases List.mem_cons.mp hx with h | h
        · rw [h]
        · exact hp e h

theorem addEdges_fold_mem (newOrgId : Nat) (l : List Url) :
    ∀ es : List (Nat × Nat), ∀ e ∈ es,
      e ∈ l.foldl (fun es u => addOrgToUrl es u.id newOrgId) es := by
  induction l with
  | nil => intro es e he; exact he
  | cons u t ih =>
    intro es e he
    rw [List.foldl_cons]
    exact ih _ e (mem_addOrgToUrl es u.id newOrgId e he)

theorem addEdges_fold_adds (newOrgId : Nat) (l : List Url) :
    ∀ es : List (Nat × Nat), ∀ u ∈ l,
      (u.id, newOrgId) ∈ l.foldl (fun es u => addOrgToUrl es u.id newOrgId) es := by
  induction l with
  | nil => intro es u hu; cases hu
  | cons v t ih =>
    intro es u hu
    rw [List.foldl_cons]
    rcases List.mem_cons.mp hu with h | h
    · subst h
      apply addEdges_fold_mem
      unfold addOrgToUrl
      split
      · next hc => exact List.elem_iff.mp hc
      · exact List.mem_append_right _ (List.mem_singleton_self _)
    · exact ih _ u h

/-- Ids injectivity inside a table with distinct primary keys. -/
theorem eq_of_id_eq_of_nodup (l : List Organization)
    (hnd : (l.map (fun o => o.id)).Nodup) (a b : Organization)
    (ha : a ∈ l) (hb : b ∈ l) (hid : a.id = b.id) : a = b :=
  List.inj_on_of_nodup_map hnd ha hb hid

theorem le_foldr_max (l : List Nat) : ∀ i ∈ l, i ≤ l.foldr (fun a b => max a b) 0 := by
  induction l with
  | nil => intro i hi; cases hi
  | cons a t ih =>
    intro i hi
    rcases List.mem_cons.mp hi with h | h
    · subst h; exact Nat.le_max_left _ _
    · exact Nat.le_trans (ih i h) (Nat.le_max_right _ _)

theorem id_lt_nextOrgId (db : DB) (o : Organization)
    (ho : o ∈ db.organizations) : o.id < nextOrgId db := by
  unfold nextOrgId nextId
  have := le_foldr_max (db.organizations.map (fun o => o.id)) o.id
    (List.mem_map_of_mem _ ho)
  omega

/-- The effect of one successful source iteration: ratings and urls are
untouched, organization ids are stable, clones and edges only extend
their tables toward the new organization, and the resolved map strictly
before the cutover is unchanged. -/
theorem mergeOneSource_preserves (country otype : String)
    (whenT now newId T : Nat) (dbC : DB) (s : String) (dbN : DB)
    (hok : mergeOneSource country otype whenT now newId dbC s = .ok dbN)
    (hT : T < whenT)
    (hNodup : (dbC.organizations.map (fun o => o.id)).Nodup)
    (hNew : ∀ o ∈ dbC.organizations, o.id = newId → o.created_on = whenT) :
    dbN.organization_ratings = dbC.organization_ratings ∧
    dbN.urls = dbC.urls ∧
    dbN.organizations.map (fun o => o.id) =
      dbC.organizations.map (fun o => o.id) ∧
    (∀ o ∈ dbN.organizations, o.id = newId → o.created_on = whenT) ∧
    (∃ exC, dbN.coordinates = dbC.coordinates ++ exC ∧
      ∀ c ∈ exC, c.organization_id = newId) ∧
    (∃ exP, dbN.promises = dbC.promises ++ exP ∧
      ∀ p ∈ exP, p.organization_id = newId) ∧
    (∃ exE, dbN.url_organization = dbC.url_organization ++ exE ∧
      ∀ e ∈ exE, e.2 = newId) ∧
    (∀ o ∈ aliveMatches dbC s country otype, ∀ u ∈ dbC.urls,
      (u.id, o.id) ∈ dbC.url_organization →
      (u.id, newId) ∈ dbN.url_organization) ∧
    (∀ s2, s2 ≠ s → ∀ o ∈ aliveMatches dbC s2 country otype,
      o ∈ aliveMatches dbN s2 country otype) ∧
    resolveMap T dbN = resolveMap T dbC := by
  unfold mergeOneSource at hok
  cases hg : getAliveOrg dbC s country otype with
  | error e => rw [hg] at hok; cases hok
  | ok src =>
    rw [hg] at hok
    simp only [] at hok
    injection hok with hdbN
    subst hdbN
    have hsrcmem : src ∈ dbC.organizations ∧
        aliveMatchP s country otype src = true := by
      have hmx : aliveMatches dbC s country otype = [src] :=
        getAliveOrg_ok_eq _ _ _ _ _ hg
      have hm : src ∈ aliveMatches dbC s country otype := by
        rw [hmx]; exact List.mem_singleton_self _
      exact ⟨(List.mem_filter.mp hm).1, (List.mem_filter.mp hm).2⟩
    have halive : ∀ o ∈ dbC.organizations, o.id = src.id → o.is_dead = false := by
      intro o ho hid
      have heq : o = src := eq_of_id_eq_of_nodup _ hNodup o src ho hsrcmem.1 hid
      rw [heq]
      exact (aliveMatchP_props _ _ _ _ hsrcmem.2).2.2.2
    have hno : ∀ o ∈ dbC.organizations, o.id = newId → aliveSql T o = false :=
      fun o ho hid => aliveSql_false_of_created_at T whenT o (hNew o ho hid) hT
    rcases cloneCoordinates_coords dbC src.id newId with ⟨exC, hC, hCP⟩
    refine ⟨rfl, rfl, ?_, ?_, ?_, ?_, ?_, ?_, ?_, ?_⟩
    · exact map_id_killMark dbC.organizations src.id whenT
        "Merged into the new organization."
    · intro o ho hid
      have ho2 : o ∈ dbC.organizations.map
          (killMark src.id whenT "Merged into the new organization.") := ho
      rcases List.mem_map.mp ho2 with ⟨o2, ho2m, hoe⟩
      rw [← hoe, killMark_created_on]
      apply hNew o2 ho2m
      rw [← killMark_id src.id whenT "Merged into the new organization." o2, hoe]
      exact hid
    · exact ⟨exC, hC, hCP⟩
    · exact clonePromises_promises (cloneCoordinates dbC src.id newId)
        src.id newId now
    · exact addEdges_fold_extra newId _ dbC.url_organization
    · intro o ho u hu hedge
      have hmx : aliveMatches dbC s country otype = [src] :=
        getAliveOrg_ok_eq _ _ _ _ _ hg
      rw [hmx] at ho
      have hosrc : o = src := List.eq_of_mem_singleton ho
      subst hosrc
      show (u.id, newId) ∈ (addUrlEdges (clonePromises
        (cloneCoordinates dbC o.id newId) o.id newId now) o.id newId).url_organization
      have hu2 : u ∈ (clonePromises (cloneCoordinates dbC o.id newId)
          o.id newId now).urls.filter
          (fun u2 => (clonePromises (cloneCoordinates dbC o.id newId)
            o.id newId now).url_organization.contains (u2.id, o.id)) := by
        apply List.mem_filter.mpr
        refine ⟨hu, ?_⟩
        exact List.elem_iff.mpr hedge
      exact addEdges_fold_adds newId _ _ u hu2
    · intro s2 hne o ho
      have hsname : src.name = s := (aliveMatchP_props _ _ _ _ hsrcmem.2).1
      have hmem : o ∈ dbC.organizations := (List.mem_filter.mp ho).1
      have hp : aliveMatchP s2 country otype o = true := (List.mem_filter.mp ho).2
      have honame : o.name = s2 := (aliveMatchP_props _ _ _ _ hp).1
      have hneq : o.id ≠ src.id := by
        intro hid
        have heq : o = src := eq_of_id_eq_of_nodup _ hNodup o src hmem hsrcmem.1 hid
        apply hne
        rw [← honame, heq, hsname]
      have hkm : killMark src.id whenT "Merged into the new organization." o = o := by
        unfold killMark; rw [if_neg hneq]
      unfold aliveMatches aliveMatchesL
      apply List.mem_filter.mpr
      refine ⟨?_, hp⟩
      show o ∈ dbC.organizations.map
        (killMark src.id whenT "Merged into the new organization.")
      exact hkm ▸ List.mem_map_of_mem _ hmem
    · calc
        resolveMap T (killOrg (addUrlEdges (clonePromises
            (cloneCoordinates dbC src.id newId) src.id newId now) src.id newId)
            src.id whenT "Merged into the new organization.")
            = resolveMapC T (dbC.organizations.map
                (killMark src.id whenT "Merged into the new organization."))
                dbC.organization_ratings
                (cloneCoordinates dbC src.id newId).coordinates := rfl
        _ = resolveMapC T (dbC.organizations.map
                (killMark src.id whenT "Merged into the new organization."))
                dbC.organization_ratings (dbC.coordinates ++ exC) := by rw [hC]
        _ = resolveMapC T dbC.organizations dbC.organization_ratings
                (dbC.coordinates ++ exC) :=
              resolveMapC_kill T whenT dbC.organizations dbC.organization_ratings
                (dbC.coordinates ++ exC) src.id
                "Merged into the new organization." hT halive
        _ = resolveMapC T dbC.organizations dbC.organization_ratings
                dbC.coordinates :=
              resolveMapC_coords T dbC.organizations dbC.organization_ratings
                dbC.coordinates exC newId hCP hno
        _ = resolveMap T dbC := rfl

/-- The cumulative effect of the whole source loop when it commits. -/
theorem mergeSources_preserves (country otype : String)
    (whenT now newId T : Nat) (srcList : List String) :
    ∀ (dbC dbN : DB),
      mergeSources country otype whenT now newId srcList dbC = .ok dbN →
      T < whenT →
      (dbC.organizations.map (fun o => o.id)).Nodup →
      (∀ o ∈ dbC.organizations, o.id = newId → o.created_on = whenT) →
      dbN.organization_ratings = dbC.organization_ratings ∧
      dbN.urls = dbC.urls ∧
      (∃ exC, dbN.coordinates = dbC.coordinates ++ exC ∧
        ∀ c ∈ exC, c.organization_id = newId) ∧
      (∃ exP, dbN.promises = dbC.promises ++ exP ∧
        ∀ p ∈ exP, p.organization_id = newId) ∧
      (∃ exE, dbN.url_organization = dbC.url_organization ++ exE ∧
        ∀ e ∈ exE, e.2 = newId) ∧
      (∀ s2 ∈ srcList, ∀ o ∈ aliveMatches dbC s2 country otype,
        ∀ u ∈ dbC.urls, (u.id, o.id) ∈ dbC.url_organization →
        (u.id, newId) ∈ dbN.url_organization) ∧
      resolveMap T dbN = resolveMap T dbC := by
  induction srcList with
  | nil =>
    intro dbC dbN hok _ _ _
    have heq : dbC = dbN := by
      have h : (Except.ok dbC : Except MergeError DB) = .ok dbN := hok
      injection h
    subst heq
    refine ⟨rfl, rfl, ⟨[], by simp, by simp⟩, ⟨[], by simp, by simp⟩,
      ⟨[], by simp, by simp⟩, ?_, rfl⟩
    intro s2 hs2
    cases hs2
  | cons x rest ih =>
    intro dbC dbN hok hT hnd hnew
    rw [mergeSources_cons] at hok
    cases hg : mergeOneSource country otype whenT now newId dbC x with
    | error e => rw [hg] at hok; cases hok
    | ok dbMid =>
      rw [hg] at hok
      simp only [] at hok
      rcases mergeOneSource_preserves country otype whenT now newId T dbC x dbMid
          hg hT hnd hnew with
        ⟨hrat1, hurl1, hids1, hnew1, ⟨exC1, hc1, hcp1⟩, ⟨exP1, hp1, hpp1⟩,
         ⟨exE1, he1, hep1⟩, hadds1, hkeeps1, hres1⟩
      have hnd1 : (dbMid.organizations.map (fun o => o.id)).Nodup := by
        rw [hids1]; exact hnd
      rcases ih dbMid dbN hok hT hnd1 hnew1 with
        ⟨hrat2, hurl2, ⟨exC2, hc2, hcp2⟩, ⟨exP2, hp2, hpp2⟩,
         ⟨exE2, he2, hep2⟩, hadds2, hres2⟩
      refine ⟨hrat2.trans hrat1, hurl2.trans hurl1, ?_, ?_, ?_, ?_,
        hres2.trans hres1⟩
      · refine ⟨exC1 ++ exC2, ?_, ?_⟩
        · rw [hc2, hc1, List.append_assoc]
        · intro c hc
          rcases List.mem_append.mp hc with h | h
          · exact hcp1 c h
          · exact hcp2 c h
      · refine ⟨exP1 ++ exP2, ?_, ?_⟩
        · rw [hp2, hp1, List.append_assoc]
        · intro p hp
          rcases List.mem_append.mp hp with h | h
          · exact hpp1 p h
          · exact hpp2 p h
      · refine ⟨exE1 ++ exE2, ?_, ?_⟩
        · rw [he2, he1, List.append_assoc]
        · intro e he
          rcases List.mem_append.mp he with h | h
          · exact hep1 e h
          · exact hep2 e h
      · intro s2 hs2 o ho u hu hedge
        by_cases hsx : s2 = x
        · subst hsx
          have hmid : (u.id, newId) ∈ dbMid.url_organization :=
            hadds1 o ho u hu hedge
          rw [he2]
          exact List.mem_append_left _ hmid
        · have hs2r : s2 ∈ rest := by
            rcases List.mem_cons.mp hs2 with h | h
            · exact absurd h hsx
            · exact h
          have ho2 : o ∈ aliveMatches dbMid s2 country otype :=
            hkeeps1 s2 hsx o ho
          have hu2 : u ∈ dbMid.urls := by rw [hurl1]; exact hu
          have hedge2 : (u.id, o.id) ∈ dbMid.url_organization := by
            rw [he1]; exact List.mem_append_left _ hedge
          exact hadds2 s2 hs2r o ho2 u hu2 hedge2

theorem nodup_ids_append (l : List Organization) (nid : Nat)
    (hnd : (l.map (fun o => o.id)).Nodup)
    (hne : ∀ o ∈ l, o.id ≠ nid) (o2 : Organization) (ho2 : o2.id = nid) :
    ((l ++ [o2]).map (fun o => o.id)).Nodup := by
  rw [List.map_append]
  apply List.Nodup.append hnd (by simp)
  intro a ha hb
  rcases List.mem_map.mp ha with ⟨o3, ho3, hao⟩
  simp only [List.map_cons, List.map_nil, List.mem_cons, List.not_mem_nil,
    or_false] at hb
  rw [← hao, ho2] at hb
  exact hne o3 ho3 hb

/-- C6: a successful merge only adds.  The rating snapshots and the url
table are untouched, all pre-merge coordinates, promises and ownership
edges are kept (new rows belong to the new organization, new edges
point at it), every url owned by an alive source distinct from the
target gains the new organization as an additional owner, and the
resolved map at any timestamp strictly before the cutover is unchanged
by the merge. -/
theorem merge_preserves_history (sources : List String) (target : String)
    (whenT now T : Nat) (otype country : String) (db dbN : DB)
    (hok : merge sources target whenT otype country now db = .ok dbN)
    (hT : T < whenT)
    (hNodup : (db.organizations.map (fun o => o.id)).Nodup) :
    dbN.organization_ratings = db.organization_ratings ∧
    dbN.urls = db.urls ∧
    (∃ exC, dbN.coordinates = db.coordinates ++ exC ∧
      ∀ c ∈ exC, c.organization_id = nextOrgId db) ∧
    (∃ exP, dbN.promises = db.promises ++ exP ∧
      ∀ p ∈ exP, p.organization_id = nextOrgId db) ∧
    (∃ exE, dbN.url_organization = db.url_organization ++ exE ∧
      ∀ e ∈ exE, e.2 = nextOrgId db) ∧
    (∀ s ∈ sources, s ≠ target → ∀ o ∈ aliveMatches db s country otype,
      ∀ u ∈ db.urls, (u.id, o.id) ∈ db.url_organization →
      (u.id, nextOrgId db) ∈ dbN.url_organization) ∧
    resolveMap T dbN = resolveMap T db := by
  unfold merge at hok
  by_cases hc : db.organization_types.contains otype
  · rw [if_pos hc] at hok
    cases hg : getAliveOrg db target country otype with
    | error e =>
      cases e with
      | multipleReturned =>
        simp only [retireOriginalTarget, hg] at hok
        cases hok
      | notFound =>
        simp only [retireOriginalTarget, hg] at hok
        have hne : ∀ o ∈ db.organizations, o.id ≠ nextOrgId db :=
          fun o ho => Nat.ne_of_lt (id_lt_nextOrgId db o ho)
        have hndApp : ((db.organizations ++
            [newOrganization (nextOrgId db) target otype country "" whenT]).map
            (fun o => o.id)).Nodup :=
          nodup_ids_append db.organizations (nextOrgId db) hNodup hne
            (newOrganization (nextOrgId db) target otype country "" whenT) rfl
        have hnewApp : ∀ o ∈ db.organizations ++
            [newOrganization (nextOrgId db) target otype country "" whenT],
            o.id = nextOrgId db → o.created_on = whenT := by
          intro o ho hid
          rcases List.mem_append.mp ho with h | h
          · exact absurd hid (hne o h)
          · rw [List.eq_of_mem_singleton h]
            rfl
        rcases mergeSources_preserves country otype whenT now (nextOrgId db) T
            sources _ dbN hok hT hndApp hnewApp with
          ⟨hrat, hurl, hcoords, hproms, hedges, hadds, hres⟩
        refine ⟨hrat, hurl, hcoords, hproms, hedges, ?_, ?_⟩
        · intro s hs hst o ho u hu hedge
          apply hadds s hs o ?_ u hu hedge
          unfold aliveMatches aliveMatchesL at ho ⊢
          exact List.mem_filter.mpr
            ⟨List.mem_append_left _ (List.mem_filter.mp ho).1,
             (List.mem_filter.mp ho).2⟩
        · rw [hres]
          have hal : aliveSql T
              (newOrganization (nextOrgId db) target otype country "" whenT) =
              false :=
            aliveSql_false_of_created_at T whenT _ rfl hT
          exact resolveMapC_append T db.organizations db.organization_ratings
            db.coordinates _ hal
    | ok orig =>
      simp only [retireOriginalTarget, hg] at hok
      have hmt : aliveMatches db target country otype = [orig] :=
        getAliveOrg_ok_eq _ _ _ _ _ hg
      have horigmem : orig ∈ db.organizations ∧
          aliveMatchP target country otype orig = true := by
        have hm : orig ∈ aliveMatches db target country otype := by
          rw [hmt]; exact List.mem_singleton_self _
        exact ⟨(List.mem_filter.mp hm).1, (List.mem_filter.mp hm).2⟩
      have halive : ∀ o ∈ db.organizations, o.id = orig.id →
          o.is_dead = false := by
        intro o ho hid
        have heq : o = orig :=
          eq_of_id_eq_of_nodup _ hNodup o orig ho horigmem.1 hid
        rw [heq]
        exact (aliveMatchP_props _ _ _ _ horigmem.2).2.2.2
      have hkillorgs : (killOrg db orig.id whenT
          "Merged with other organizations, reusing the same name but different data.").organizations =
          db.organizations.map (killMark orig.id whenT
            "Merged with other organizations, reusing the same name but different data.") := rfl
      have hids1 : (killOrg db orig.id whenT
          "Merged with other organizations, reusing the same name but different data.").organizations.map
          (fun o => o.id) = db.organizations.map (fun o => o.id) := by
        rw [hkillorgs]
        exact map_id_killMark db.organizations orig.id whenT _
      have hnext1 : nextOrgId (killOrg db orig.id whenT
          "Merged with other organizations, reusing the same name but different data.") =
          nextOrgId db := by
        unfold nextOrgId
        rw [hids1]
      rw [hnext1] at hok
      have hne2 : ∀ o ∈ (killOrg db orig.id whenT
          "Merged with other organizations, reusing the same name but different data.").organizations,
          o.id ≠ nextOrgId db := by
        intro o ho
        rw [hkillorgs] at ho
        rcases List.mem_map.mp ho with ⟨o2, ho2, hoe⟩
        rw [← hoe, killMark_id]
        exact Nat.ne_of_lt (id_lt_nextOrgId db o2 ho2)
      have hnd1 : ((killOrg db orig.id whenT
          "Merged with other organizations, reusing the same name but different data.").organizations.map
          (fun o => o.id)).Nodup := by
        rw [hids1]
        exact hNodup
      have hndApp := nodup_ids_append _ (nextOrgId db) hnd1 hne2
        (newOrganization (nextOrgId db) target otype country
          orig.twitter_handle whenT) rfl
      have hnewApp : ∀ o ∈ (killOrg db orig.id whenT
          "Merged with other organizations, reusing the same name but different data.").organizations ++
          [newOrganization (nextOrgId db) target otype country
            orig.twitter_handle whenT],
          o.id = nextOrgId db → o.created_on = whenT := by
        intro o ho hid
        rcases List.mem_append.mp ho with h | h
        · exact absurd hid (hne2 o h)
        · rw [List.eq_of_mem_singleton h]
          rfl
      rcases mergeSources_preserves country otype whenT now (nextOrgId db) T
          sources _ dbN hok hT hndApp hnewApp with
        ⟨hrat, hurl, hcoords, hproms, hedges, hadds, hres⟩
      refine ⟨hrat, hurl, hcoords, hproms, hedges, ?_, ?_⟩
      · intro s hs hst o ho u hu hedge
        apply hadds s hs o ?_ u hu hedge
        have hmem : o ∈ db.organizations := (List.mem_filter.mp ho).1
        have hp : aliveMatchP s country otype o = true :=
          (List.mem_filter.mp ho).2
        have honame : o.name = s := (aliveMatchP_props _ _ _ _ hp).1
        have htname : orig.name = target :=
          (aliveMatchP_props _ _ _ _ horigmem.2).1
        have hneq : o.id ≠ orig.id := by
          intro hid
          have heq : o = orig :=
            eq_of_id_eq_of_nodup _ hNodup o orig hmem horigmem.1 hid
          apply hst
          rw [← honame, heq, htname]
        have hkm : killMark orig.id whenT
            "Merged with other organizations, reusing the same name but different data." o = o := by
          unfold killMark; rw [if_neg hneq]
        unfold aliveMatches aliveMatchesL
        apply List.mem_filter.mpr
        refine ⟨?_, hp⟩
        apply List.mem_append_left
        rw [hkillorgs]
        exact hkm ▸ List.mem_map_of_mem _ hmem
      · rw [hres]
        have hal : aliveSql T (newOrganization (nextOrgId db) target otype
            country orig.twitter_handle whenT) = false :=
          aliveSql_false_of_created_at T whenT _ rfl hT
        calc
          resolveMapC T (db.organizations.map (killMark orig.id whenT
              "Merged with other organizations, reusing the same name but different data.") ++
              [newOrganization (nextOrgId db) target otype country
                orig.twitter_handle whenT])
              db.organization_ratings db.coordinates
              = resolveMapC T (db.organizations.map (killMark orig.id whenT
                  "Merged with other organizations, reusing the same name but different data."))
                  db.organization_ratings db.coordinates :=
                resolveMapC_append T _ _ _ _ hal
          _ = resolveMapC T db.organizations db.organization_ratings
                  db.coordinates :=
                resolveMapC_kill T whenT db.organizations _ _ orig.id _ hT halive
          _ = resolveMap T db := rfl
  · rw [if_neg hc] at hok
    cases hok

/-- A coordinate, URL, ownership edge and rating of organization A. -/
def coordA : Coordinate :=
  { id := 1, organization_id := 1, area := "polyA", geoJsonType := "Polygon",
    created_on := 0, is_dead := false, is_dead_since := none }

def urlA : Url :=
  { id := 1, url := "a.example.nl", is_dead := false, not_resolvable := false }

def ratingA : OrgRating :=
  { id := 1, organization_id := 1, rating := 10, when := 2,
    high := 1, medium := 0, low := 0, calculation := calcEx }

/-- A database where organization A owns one URL, one coordinate and
one rating snapshot. -/
def dbC6 : DB :=
  { organization_types := ["municipality"], organizations := [orgAliveA],
    coordinates := [coordA], promises := [], urls := [urlA],
    url_organization := [(1, 1)], organization_ratings := [ratingA] }

/-- The result of merging A into B at cutover 10. -/
def dbC6merged : DB :=
  match merge ["A"] "B" 10 "municipality" "NL" 0 dbC6 with
  | .ok d => d
  | .error _ => dbC6

/-- Witness for C6 at a concrete input: merging A into B at cutover 10
keeps ratings and urls, only extends coordinates, promises and edges
toward the new organization, adds it as owner of the url of A, and
leaves the resolved map at T = 5 unchanged. -/
theorem merge_preserves_history_witness :
    dbC6merged.organization_ratings = dbC6.organization_ratings ∧
    dbC6merged.urls = dbC6.urls ∧
    (∃ exC, dbC6merged.coordinates = dbC6.coordinates ++ exC ∧
      ∀ c ∈ exC, c.organization_id = nextOrgId dbC6) ∧
    (∃ exP, dbC6merged.promises = dbC6.promises ++ exP ∧
      ∀ p ∈ exP, p.organization_id = nextOrgId dbC6) ∧
    (∃ exE, dbC6merged.url_organization = dbC6.url_organization ++ exE ∧
      ∀ e ∈ exE, e.2 = nextOrgId dbC6) ∧
    (∀ s ∈ ["A"], s ≠ "B" → ∀ o ∈ aliveMatches dbC6 s "NL" "municipality",
      ∀ u ∈ dbC6.urls, (u.id, o.id) ∈ dbC6.url_organization →
      (u.id, nextOrgId dbC6) ∈ dbC6merged.url_organization) ∧
    resolveMap 5 dbC6merged = resolveMap 5 dbC6 :=
  merge_preserves_history ["A"] "B" 10 0 5 "municipality" "NL" dbC6
    dbC6merged rfl (by decide) (by decide)

/-! ## Statistics Reporter (stats, views.py lines 432-568)

The per-timeframe measurement fold.  Python dicts keep insertion order;
we model them as association lists extended at the end.  One modelling
note: the source reads `url['endpoints']` without guarding against an
absent key (it would raise KeyError there); we read an absent key as
the empty list. -/

/-- The accumulating state of one `stats` timeframe. -/
structure Measurement where
  red : Nat
  orange : Nat
  green : Nat
  total_organizations : Nat
  total_score : Nat
  no_rating : Nat
  total_urls : Nat
  red_urls : Nat
  orange_urls : Nat
  green_urls : Nat
  included_organizations : Nat
  endpoints : Nat
  endpoint : List (String × Nat)
  explained : List (String × List (String × Nat))
  noduplicates : List String
deriving Repr, DecidableEq

def emptyMeasurement : Measurement :=
  { red := 0, orange := 0, green := 0, total_organizations := 0,
    total_score := 0, no_rating := 0, total_urls := 0, red_urls := 0,
    orange_urls := 0, green_urls := 0, included_organizations := 0,
    endpoints := 0, endpoint := [], explained := [], noduplicates := [] }

/-- `if key not in d: d[key] = 0` followed by `d[key] += 1`. -/
def bumpKey : List (String × Nat) → String → List (String × Nat)
  | [], key => [(key, 1)]
  | (k, v) :: t, key =>
      if k = key then (k, v + 1) :: t else (k, v) :: bumpKey t key

/-- `if type not in explained: explained[type] = {}; explained[type]['total'] = 0`. -/
def ensureType : List (String × List (String × Nat)) → String →
    List (String × List (String × Nat))
  | [], ty => [(ty, [("total", 0)])]
  | (k, d) :: t, ty =>
      if k = ty then (k, d) :: t else (k, d) :: ensureType t ty

/-- Bump one key inside the per-type dictionary. -/
def bumpInType : List (String × List (String × Nat)) → String → String →
    List (String × List (String × Nat))
  | [], _, _ => []
  | (k, d) :: t, ty, key =>
      if k = ty then (k, bumpKey d key) :: t else (k, d) :: bumpInType t ty key

/-- `"%s/%s (%s)" % (protocol, port, "IPv4" if ip_version == 4 else "IPv6")`. -/
def endpointKey (ep : EndpointCalc) : String :=
  ep.protocol ++ "/" ++ toString ep.port ++
    (if ep.ip_version = 4 then " (IPv4)" else " (IPv6)")

/-- One iteration of the inner `for r in endpoint['ratings']` loop: the
type entry is created (with a zero total) even for repeated findings;
a non-repeated finding bumps its explanation and the type total, and
the first non-repeated finding of the endpoint also counts the endpoint
once (at most one IPv4 and one IPv6 per protocol/port per URL). -/
def processEndpointRating (ep : EndpointCalc) (st : Measurement × Bool)
    (r : EndpointRatingEntry) : Measurement × Bool :=
  let m1 := { st.1 with explained := ensureType st.1.explained r.rtype }
  if r.explanation.startsWith "Repeated finding." then (m1, st.2)
  else
    let ex2 := bumpInType (bumpInType m1.explained r.rtype r.explanation) r.rtype "total"
    let m2 := { m1 with explained := ex2 }
    if st.2 then (m2, true)
    else
      ({ m2 with endpoint := bumpKey m2.endpoint (endpointKey ep),
                 endpoints := m2.endpoints + 1 }, true)

/-- Fold one endpoint of a URL, with the once-per-endpoint flag. -/
def processEndpoint (m : Measurement) (ep : EndpointCalc) : Measurement :=
  (ep.ratings.foldl (processEndpointRating ep) (m, false)).1

/-- Fold one URL of an organization calculation: URLs already seen in
this timeframe (across organizations) are skipped entirely. -/
def processUrl (m : Measurement) (u : UrlCalc) : Measurement :=
  if m.noduplicates.contains u.url then m
  else
    let m1 := { m with noduplicates := m.noduplicates ++ [u.url] }
    (u.endpoints.getD []).foldl processEndpoint m1

/-- The counter bumps of one non-sentinel rating, before its URL loop:
organization counters by Python truthiness of `high` and `medium`, URL
counters once per URL entry of this organization (shared URLs are
counted again for each claiming organization). -/
def statsCountStep (m : Measurement) (r : OrgRating) : Measurement :=
  let m1 := { m with total_organizations := m.total_organizations + 1 }
  let m2 :=
    if r.high ≠ 0 then { m1 with red := m1.red + 1 }
    else if r.medium ≠ 0 then { m1 with orange := m1.orange + 1 }
    else { m1 with green := m1.green + 1 }
  let urls := r.calculation.urls
  { m2 with
    total_urls := m2.total_urls + urls.length,
    green_urls := m2.green_urls + urls.countP (fun u => u.high = 0 && u.medium = 0),
    orange_urls := m2.orange_urls + urls.countP (fun u => u.high = 0 && u.medium > 0),
    red_urls := m2.red_urls + urls.countP (fun u => u.high > 0),
    included_organizations := m2.included_organizations + 1 }

/-- Fold one selected organization rating: the sentinel `rating == -1`
is skipped by an explicit equality test, every other rating bumps the
counters and then runs the URL loop. -/
def processRating (m : Measurement) (r : OrgRating) : Measurement :=
  if r.rating = -1 then m
  else r.calculation.urls.foldl processUrl (statsCountStep m r)

/-- The measurement of one timeframe over its selected ratings; the
endpoint dictionary is sorted by key at the end
(`sorted(measurement["endpoint"].items())`). -/
def statsMeasurement (ratings : List OrgRating) : Measurement :=
  let m := ratings.foldl processRating emptyMeasurement
  { m with endpoint := sortBy (fun a b => !(strLt b.1 a.1)) m.endpoint }

/-- Python `round`: round half to even, on exact rationals. -/
def pyRound (q : ℚ) : ℤ :=
  let f := ⌊q⌋
  let r := q - (f : ℚ)
  if r < 1 / 2 then f
  else if 1 / 2 < r then f + 1
  else if f % 2 = 0 then f else f + 1

/-- One timeframe of the stats output: the measurement and its six
percentage fields. -/
structure StatsOut where
  m : Measurement
  red_percentage : ℤ
  orange_percentage : ℤ
  green_percentage : ℤ
  red_url_percentage : ℤ
  orange_url_percentage : ℤ
  green_url_percentage : ℤ
deriving DecidableEq

/-- The percentage post-processing of `stats`: guarded by Python
truthiness of the denominator, `round((count / total) * 100)`. -/
def statsOut (ratings : List OrgRating) : StatsOut :=
  let m := statsMeasurement ratings
  { m := m,
    red_percentage :=
      if m.included_organizations ≠ 0 then
        pyRound ((m.red : ℚ) / (m.included_organizations : ℚ) * 100) else 0,
    orange_percentage :=
      if m.included_organizations ≠ 0 then
        pyRound ((m.orange : ℚ) / (m.included_organizations : ℚ) * 100) else 0,
    green_percentage :=
      if m.included_organizations ≠ 0 then
        pyRound ((m.green : ℚ) / (m.included_organizations : ℚ) * 100) else 0,
    red_url_percentage :=
      if m.total_urls ≠ 0 then
        pyRound ((m.red_urls : ℚ) / (m.total_urls : ℚ) * 100) else 0,
    orange_url_percentage :=
      if m.total_urls ≠ 0 then
        pyRound ((m.orange_urls : ℚ) / (m.total_urls : ℚ) * 100) else 0,
    green_url_percentage :=
      if m.total_urls ≠ 0 then
        pyRound ((m.green_urls : ℚ) / (m.total_urls : ℚ) * 100) else 0 }

/-- The organization- and URL-level counters of a measurement; the
inner URL loop never touches them. -/
def SameCounts (a b : Measurement) : Prop :=
  a.red = b.red ∧ a.orange = b.orange ∧ a.green = b.green ∧
  a.total_organizations = b.total_organizations ∧
  a.total_urls = b.total_urls ∧ a.red_urls = b.red_urls ∧
  a.orange_urls = b.orange_urls ∧ a.green_urls = b.green_urls ∧
  a.included_organizations = b.included_organizations

theorem sameCounts_refl (a : Measurement) : SameCounts a a :=
  ⟨rfl, rfl, rfl, rfl, rfl, rfl, rfl, rfl, rfl⟩

theorem sameCounts_trans {a b c : Measurement}
    (h1 : SameCounts a b) (h2 : SameCounts b c) : SameCounts a c := by
  obtain ⟨x1, x2, x3, x4, x5, x6, x7, x8, x9⟩ := h1
  obtain ⟨y1, y2, y3, y4, y5, y6, y7, y8, y9⟩ := h2
  exact ⟨x1.trans y1, x2.trans y2, x3.trans y3, x4.trans y4, x5.trans y5,
    x6.trans y6, x7.trans y7, x8.trans y8, x9.trans y9⟩

theorem sameCounts_processEndpointRating (ep : EndpointCalc)
    (st : Measurement × Bool) (r : EndpointRatingEntry) :
    SameCounts (processEndpointRating ep st r).1 st.1 := by
  unfold processEndpointRating
  by_cases h1 : r.explanation.startsWith "Repeated finding." = true
  · rw [if_pos h1]
    exact sameCounts_refl _
  · rw [if_neg h1]
    by_cases h2 : st.2 = true
    · rw [if_pos h2]
      exact sameCounts_refl _
    · rw [if_neg h2]
      exact sameCounts_refl _

theorem sameCounts_foldl_epr (ep : EndpointCalc) (l : List EndpointRatingEntry) :
    ∀ st : Measurement × Bool,
      SameCounts (l.foldl (processEndpointRating ep) st).1 st.1 := by
  induction l with
  | nil => intro st; exact sameCounts_refl _
  | cons r t ih =>
    intro st
    rw [List.foldl_cons]
    exact sameCounts_trans (ih _) (sameCounts_processEndpointRating ep st r)

theorem sameCounts_processEndpoint (m : Measurement) (ep : EndpointCalc) :
    SameCounts (processEndpoint m ep) m :=
  sameCounts_foldl_epr ep ep.ratings (m, false)

theorem sameCounts_foldl_ep (l : List EndpointCalc) :
    ∀ m : Measurement, SameCounts (l.foldl processEndpoint m) m := by
  induction l with
  | nil => intro m; exact sameCounts_refl _
  | cons ep t ih =>
    intro m
    rw [List.foldl_cons]
    exact sameCounts_trans (ih _) (sameCounts_processEndpoint m ep)

theorem sameCounts_processUrl (m : Measurement) (u : UrlCalc) :
    SameCounts (processUrl m u) m := by
  unfold processUrl
  by_cases h : m.noduplicates.contains u.url = true
  · rw [if_pos h]
    exact sameCounts_refl _
  · rw [if_neg h]
    exact sameCounts_trans (sameCounts_foldl_ep _ _) (sameCounts_refl _)

theorem sameCounts_foldl_url (l : List UrlCalc) :
    ∀ m : Measurement, SameCounts (l.foldl processUrl m) m := by
  induction l with
  | nil => intro m; exact sameCounts_refl _
  | cons u t ih =>
    intro m
    rw [List.foldl_cons]
    exact sameCounts_trans (ih _) (sameCounts_processUrl m u)

theorem processRating_skip (m : Measurement) (r : OrgRating)
    (hr : r.rating = -1) : processRating m r = m := by
  unfold processRating
  rw [if_pos hr]

theorem statsCountStep_counts (m : Measurement) (r : OrgRating) :
    (statsCountStep m r).red = (if r.high ≠ 0 then m.red + 1 else m.red) ∧
    (statsCountStep m r).orange =
      (if r.high = 0 ∧ r.medium ≠ 0 then m.orange + 1 else m.orange) ∧
    (statsCountStep m r).green =
      (if r.high = 0 ∧ r.medium = 0 then m.green + 1 else m.green) ∧
    (statsCountStep m r).included_organizations =
      m.included_organizations + 1 ∧
    (statsCountStep m r).total_urls =
      m.total_urls + r.calculation.urls.length ∧
    (statsCountStep m r).red_urls =
      m.red_urls + r.calculation.urls.countP (fun u => u.high > 0) ∧
    (statsCountStep m r).orange_urls =
      m.orange_urls + r.calculation.urls.countP
        (fun u => u.high = 0 && u.medium > 0) ∧
    (statsCountStep m r).green_urls =
      m.green_urls + r.calculation.urls.countP
        (fun u => u.high = 0 && u.medium = 0) := by
  unfold statsCountStep
  by_cases hh : r.high = 0 <;> by_cases hm : r.medium = 0 <;>
    simp [hh, hm]

theorem processRating_counts (m : Measurement) (r : OrgRating)
    (hr : ¬ r.rating = -1) :
    (processRating m r).red = (if r.high ≠ 0 then m.red + 1 else m.red) ∧
    (processRating m r).orange =
      (if r.high = 0 ∧ r.medium ≠ 0 then m.orange + 1 else m.orange) ∧
    (processRating m r).green =
      (if r.high = 0 ∧ r.medium = 0 then m.green + 1 else m.green) ∧
    (processRating m r).included_organizations =
      m.included_organizations + 1 ∧
    (processRating m r).total_urls =
      m.total_urls + r.calculation.urls.length ∧
    (processRating m r).red_urls =
      m.red_urls + r.calculation.urls.countP (fun u => u.high > 0) ∧
    (processRating m r).orange_urls =
      m.orange_urls + r.calculation.urls.countP
        (fun u => u.high = 0 && u.medium > 0) ∧
    (processRating m r).green_urls =
      m.green_urls + r.calculation.urls.countP
        (fun u => u.high = 0 && u.medium = 0) := by
  have heq : processRating m r =
      r.calculation.urls.foldl processUrl (statsCountStep m r) := by
    unfold processRating
    rw [if_neg hr]
  obtain ⟨f1, f2, f3, _, f5, f6, f7, f8, f9⟩ :=
    sameCounts_foldl_url r.calculation.urls (statsCountStep m r)
  obtain ⟨s1, s2, s3, s4, s5, s6, s7, s8⟩ := statsCountStep_counts m r
  rw [heq]
  exact ⟨f1.trans s1, f2.trans s2, f3.trans s3, f9.trans s4, f5.trans s5,
    f6.trans s6, f7.trans s7, f8.trans s8⟩

/-- Closed forms of all nine counters over a fold of selected ratings:
organization tallies count non-sentinel ratings by severity, URL
tallies sum per organization over its URL entries. -/
theorem foldl_processRating_counts (rs : List OrgRating) :
    ∀ m : Measurement,
      (rs.foldl processRating m).red =
        m.red + (rs.filter (fun r => r.rating ≠ -1)).countP
          (fun r => r.high ≠ 0) ∧
      (rs.foldl processRating m).orange =
        m.orange + (rs.filter (fun r => r.rating ≠ -1)).countP
          (fun r => r.high = 0 && r.medium ≠ 0) ∧
      (rs.foldl processRating m).green =
        m.green + (rs.filter (fun r => r.rating ≠ -1)).countP
          (fun r => r.high = 0 && r.medium = 0) ∧
      (rs.foldl processRating m).included_organizations =
        m.included_organizations +
          (rs.filter (fun r => r.rating ≠ -1)).length ∧
      (rs.foldl processRating m).total_urls =
        m.total_urls + ((rs.filter (fun r => r.rating ≠ -1)).map
          (fun r => r.calculation.urls.length)).sum ∧
      (rs.foldl processRating m).red_urls =
        m.red_urls + ((rs.filter (fun r => r.rating ≠ -1)).map
          (fun r => r.calculation.urls.countP (fun u => u.high > 0))).sum ∧
      (rs.foldl processRating m).orange_urls =
        m.orange_urls + ((rs.filter (fun r => r.rating ≠ -1)).map
          (fun r => r.calculation.urls.countP
            (fun u => u.high = 0 && u.medium > 0))).sum ∧
      (rs.foldl processRating m).green_urls =
        m.green_urls + ((rs.filter (fun r => r.rating ≠ -1)).map
          (fun r => r.calculation.urls.countP
            (fun u => u.high = 0 && u.medium = 0))).sum := by
  induction rs with
  | nil => intro m; simp
  | cons r t ih =>
    intro m
    rw [List.foldl_cons]
    by_cases hr : r.rating = -1
    · rw [processRating_skip m r hr]
      have hfc : (r :: t).filter (fun r => r.rating ≠ -1) =
          t.filter (fun r => r.rating ≠ -1) := by
        rw [List.filter_cons]
        simp [hr]
      rw [hfc]
      exact ih m
    · have hfc : (r :: t).filter (fun r => r.rating ≠ -1) =
          r :: t.filter (fun r => r.rating ≠ -1) := by
        rw [List.filter_cons]
        simp [hr]
      rw [hfc]
      obtain ⟨p1, p2, p3, p4, p5, p6, p7, p8⟩ := processRating_counts m r hr
      obtain ⟨q1, q2, q3, q4, q5, q6, q7, q8⟩ := ih (processRating m r)
      refine ⟨?_, ?_, ?_, ?_, ?_, ?_, ?_, ?_⟩
      · rw [q1, p1, List.countP_cons]
        by_cases hh : r.high = 0 <;> simp [hh] <;> omega
      · rw [q2, p2, List.countP_cons]
        by_cases hh : r.high = 0 <;> by_cases hm : r.medium = 0 <;>
          simp [hh, hm] <;> omega
      · rw [q3, p3, List.countP_cons]
        by_cases hh : r.high = 0 <;> by_cases hm : r.medium = 0 <;>
          simp [hh, hm] <;> omega
      · rw [q4, p4, List.length_cons]
        omega
      · rw [q5, p5, List.map_cons, List.sum_cons]
        omega
      · rw [q6, p6, List.map_cons, List.sum_cons]
        omega
      · rw [q7, p7, List.map_cons, List.sum_cons]
        omega
      · rw [q8, p8, List.map_cons, List.sum_cons]
        omega

/-- C7: each percentage field of a stats timeframe equals
`round(100 * count / total)` for its counter and denominator and is 0
when the denominator is 0; the counters themselves are the severity
counts over the non-sentinel selected ratings. -/
theorem stats_percentages (rs : List OrgRating) :
    ((statsOut rs).red_percentage =
      if (statsOut rs).m.included_organizations = 0 then 0
      else pyRound (100 * ((statsOut rs).m.red : ℚ) /
        ((statsOut rs).m.included_organizations : ℚ))) ∧
    ((statsOut rs).orange_percentage =
      if (statsOut rs).m.included_organizations = 0 then 0
      else pyRound (100 * ((statsOut rs).m.orange : ℚ) /
        ((statsOut rs).m.included_organizations : ℚ))) ∧
    ((statsOut rs).green_percentage =
      if (statsOut rs).m.included_organizations = 0 then 0
      else pyRound (100 * ((statsOut rs).m.green : ℚ) /
        ((statsOut rs).m.included_organizations : ℚ))) ∧
    ((statsOut rs).red_url_percentage =
      if (statsOut rs).m.total_urls = 0 then 0
      else pyRound (100 * ((statsOut rs).m.red_urls : ℚ) /
        ((statsOut rs).m.total_urls : ℚ))) ∧
    ((statsOut rs).orange_url_percentage =
      if (statsOut rs).m.total_urls = 0 then 0
      else pyRound (100 * ((statsOut rs).m.orange_urls : ℚ) /
        ((statsOut rs).m.total_urls : ℚ))) ∧
    ((statsOut rs).green_url_percentage =
      if (statsOut rs).m.total_urls = 0 then 0
      else pyRound (100 * ((statsOut rs).m.green_urls : ℚ) /
        ((statsOut rs).m.total_urls : ℚ))) ∧
    (statsOut rs).m.included_organizations =
      (rs.filter (fun r => r.rating ≠ -1)).length ∧
    (statsOut rs).m.red =
      (rs.filter (fun r => r.rating ≠ -1)).countP (fun r => r.high ≠ 0) ∧
    (statsOut rs).m.orange =
      (rs.filter (fun r => r.rating ≠ -1)).countP
        (fun r => r.high = 0 && r.medium ≠ 0) ∧
    (statsOut rs).m.green =
      (rs.filter (fun r => r.rating ≠ -1)).countP
        (fun r => r.high = 0 && r.medium = 0) := by
  obtain ⟨h1, h2, h3, h4, h5, h6, h7, h8⟩ :=
    foldl_processRating_counts rs emptyMeasurement
  have hm : (statsOut rs).m = statsMeasurement rs := rfl
  have hpr : ∀ a b : Nat,
      (if b ≠ 0 then pyRound ((a : ℚ) / (b : ℚ) * 100) else 0) =
      (if b = 0 then 0 else pyRound (100 * (a : ℚ) / (b : ℚ))) := by
    intro a b
    by_cases hb : b = 0
    · simp [hb]
    · rw [if_pos hb, if_neg hb]
      congr 1
      ring
  have hred : (statsMeasurement rs).red =
      (rs.filter (fun r => r.rating ≠ -1)).countP (fun r => r.high ≠ 0) := by
    show (rs.foldl processRating emptyMeasurement).red = _
    rw [h1]
    simp [emptyMeasurement]
  have horange : (statsMeasurement rs).orange =
      (rs.filter (fun r => r.rating ≠ -1)).countP
        (fun r => r.high = 0 && r.medium ≠ 0) := by
    show (rs.foldl processRating emptyMeasurement).orange = _
    rw [h2]
    simp [emptyMeasurement]
  have hgreen : (statsMeasurement rs).green =
      (rs.filter (fun r => r.rating ≠ -1)).countP
        (fun r => r.high = 0 && r.medium = 0) := by
    show (rs.foldl processRating emptyMeasurement).green = _
    rw [h3]
    simp [emptyMeasurement]
  have hinc : (statsMeasurement rs).included_organizations =
      (rs.filter (fun r => r.rating ≠ -1)).length := by
    show (rs.foldl processRating emptyMeasurement).included_organizations = _
    rw [h4]
    simp [emptyMeasurement]
  refine ⟨?_, ?_, ?_, ?_, ?_, ?_, hinc, hred, horange, hgreen⟩
  · exact hpr (statsMeasurement rs).red
      (statsMeasurement rs).included_organizations
  · exact hpr (statsMeasurement rs).orange
      (statsMeasurement rs).included_organizations
  · exact hpr (statsMeasurement rs).green
      (statsMeasurement rs).included_organizations
  · exact hpr (statsMeasurement rs).red_urls (statsMeasurement rs).total_urls
  · exact hpr (statsMeasurement rs).orange_urls (statsMeasurement rs).total_urls
  · exact hpr (statsMeasurement rs).green_urls (statsMeasurement rs).total_urls

theorem foldl_processRating_filter (rs : List OrgRating) :
    ∀ m : Measurement, rs.foldl processRating m =
      (rs.filter (fun r => r.rating ≠ -1)).foldl processRating m := by
  induction rs with
  | nil => intro m; rfl
  | cons r t ih =>
    intro m
    rw [List.foldl_cons]
    by_cases hr : r.rating = -1
    · have hfc : (r :: t).filter (fun r => r.rating ≠ -1) =
          t.filter (fun r => r.rating ≠ -1) := by
        rw [List.filter_cons]; simp [hr]
      rw [processRating_skip m r hr, hfc]
      exact ih m
    · have hfc : (r :: t).filter (fun r => r.rating ≠ -1) =
          r :: t.filter (fun r => r.rating ≠ -1) := by
        rw [List.filter_cons]; simp [hr]
      rw [hfc, List.foldl_cons]
      exact ih (processRating m r)

/-- A rating with the non-sentinel value 0 (falsy in Python). -/
def zeroRatingEx : OrgRating :=
  { id := 3, organization_id := 3, rating := 0, when := 1,
    high := 0, medium := 0, low := 0, calculation := { urls := [] } }

/-- C8: an organization whose selected snapshot carries the sentinel
rating -1 contributes to no field of the stats timeframe — the whole
output (every counter, percentage, endpoint tally and explanation
tally) equals the output over the ratings with the sentinel filtered
out — and the skip is an equality test on -1, not a falsy-value skip:
a rating of 0 is counted. -/
theorem stats_sentinel_excluded (rs : List OrgRating) :
    statsOut rs = statsOut (rs.filter (fun r => r.rating ≠ -1)) ∧
    (statsOut [zeroRatingEx]).m.included_organizations = 1 := by
  constructor
  · unfold statsOut statsMeasurement
    rw [foldl_processRating_filter rs emptyMeasurement]
  · rfl

/-- A URL claimed by two organizations, each carrying it in its own
resolved calculation. -/
def sharedUrlCalc : UrlCalc :=
  { url := "s.example.nl", high := 0, medium := 0, endpoints := some [] }

def rShared1 : OrgRating :=
  { id := 1, organization_id := 1, rating := 5, when := 1,
    high := 0, medium := 0, low := 0, calculation := { urls := [sharedUrlCalc] } }

def rShared2 : OrgRating :=
  { id := 2, organization_id := 2, rating := 5, when := 1,
    high := 0, medium := 0, low := 0, calculation := { urls := [sharedUrlCalc] } }

/-- C9 counterexample: one distinct URL shared by two organizations is
counted twice in `total_urls` (the code sums `len(urls)` per
organization and its own comment admits the doubling), not once as the
claim states. -/
theorem stats_shared_url_double_counted :
    (statsOut [rShared1, rShared2]).m.total_urls = 2 ∧
    ((rShared1.calculation.urls ++ rShared2.calculation.urls).map
      (fun u => u.url)).dedup.length = 1 ∧
    (statsOut [rShared1, rShared2]).m.total_urls ≠
      ((rShared1.calculation.urls ++ rShared2.calculation.urls).map
        (fun u => u.url)).dedup.length := by
  refine ⟨rfl, by decide, by decide⟩

/-- C9 amended: the URL-level classification counts count each URL once
per claiming organization (a URL shared by k organizations contributes
k times); the deduplication by URL identity applies to the endpoint and
explanation tallies instead, whose per-URL processing is skipped
entirely for an already-seen URL. -/
theorem stats_url_counts_per_claiming_organization (rs : List OrgRating) :
    (statsOut rs).m.total_urls =
      ((rs.filter (fun r => r.rating ≠ -1)).map
        (fun r => r.calculation.urls.length)).sum ∧
    (statsOut rs).m.red_urls =
      ((rs.filter (fun r => r.rating ≠ -1)).map
        (fun r => r.calculation.urls.countP (fun u => u.high > 0))).sum ∧
    (statsOut rs).m.orange_urls =
      ((rs.filter (fun r => r.rating ≠ -1)).map
        (fun r => r.calculation.urls.countP
          (fun u => u.high = 0 && u.medium > 0))).sum ∧
    (statsOut rs).m.green_urls =
      ((rs.filter (fun r => r.rating ≠ -1)).map
        (fun r => r.calculation.urls.countP
          (fun u => u.high = 0 && u.medium = 0))).sum ∧
    (∀ (m : Measurement) (u : UrlCalc),
      m.noduplicates.contains u.url = true → processUrl m u = m) := by
  obtain ⟨_, _, _, _, h5, h6, h7, h8⟩ :=
    foldl_processRating_counts rs emptyMeasurement
  refine ⟨?_, ?_, ?_, ?_, ?_⟩
  · show (rs.foldl processRating emptyMeasurement).total_urls = _
    rw [h5]; simp [emptyMeasurement]
  · show (rs.foldl processRating emptyMeasurement).red_urls = _
    rw [h6]; simp [emptyMeasurement]
  · show (rs.foldl processRating emptyMeasurement).orange_urls = _
    rw [h7]; simp [emptyMeasurement]
  · show (rs.foldl processRating emptyMeasurement).green_urls = _
    rw [h8]; simp [emptyMeasurement]
  · intro m u hdup
    unfold processUrl
    rw [if_pos hdup]

/-- Witness for the amended C9 at concrete inputs: one organization
with one URL yields a total of one, and processing an already-seen URL
leaves the measurement unchanged. -/
theorem stats_url_counts_per_claiming_organization_witness :
    (statsOut [rShared1]).m.total_urls =
      (([rShared1].filter (fun r => r.rating ≠ -1)).map
        (fun r => r.calculation.urls.length)).sum ∧
    processUrl { emptyMeasurement with noduplicates := ["s.example.nl"] }
      sharedUrlCalc =
      { emptyMeasurement with noduplicates := ["s.example.nl"] } :=
  ⟨(stats_url_counts_per_claiming_organization [rShared1]).1,
   (stats_url_counts_per_claiming_organization []).2.2.2.2
     { emptyMeasurement with noduplicates := ["s.example.nl"] }
     sharedUrlCalc (by decide)⟩

end Failmap
